import Mathlib

set_option maxHeartbeats 1000000

/-!
Verification development for the cross-chunk speaker-diarisation merge of
scripts/merge_fluidaudio_chunks.py.

Modelling conventions:
* Python floats are modelled exactly: times, durations, quality scores and
  embedding components are rationals; the cosine similarity, whose formula
  divides by square roots, is a real number.
* Python dicts are insertion-ordered association lists (Lean lists of pairs),
  which captures CPython's documented insertion-order iteration.
* Python exceptions are modelled with Except String: int() raising ValueError
  on a non-numeric speaker id, and np.dot raising ValueError on a 1-d shape
  mismatch.  Dict subscripts whose keys are always present by construction are
  modelled with getD and a default that is never reached.
* The timestamp field of the output (a filesystem mtime) is outside the model;
  no claim mentions it.
-/

/-- A diarisation segment as read from a FluidAudio chunk JSON file. -/
structure Segment where
  startTimeSeconds : ℚ
  endTimeSeconds : ℚ
  speakerId : String
  qualityScore : ℚ
  embedding : List ℚ
deriving DecidableEq

/-- One chunk file's payload: its segment list and its durationSeconds field. -/
structure ChunkData where
  segments : List Segment
  durationSeconds : ℚ
deriving DecidableEq

/-- Lookup in an insertion-ordered association list (the model of a Python dict). -/
def dlookup {β : Type} (k : String) : List (String × β) → Option β
  | [] => none
  | p :: rest => if p.1 = k then some p.2 else dlookup k rest

/-- Key membership, modelling Python's `k in d` on a dict. -/
def dmemb {β : Type} (k : String) (d : List (String × β)) : Bool :=
  (dlookup k d).isSome

/-- Replace the value stored at a key, keeping the key's position — Python's
`d[k] = v` when `k` is already present. -/
def dset {β : Type} (k : String) (v : β) : List (String × β) → List (String × β)
  | [] => []
  | p :: rest => if p.1 = k then (p.1, v) :: rest else p :: dset k v rest

/-- Surrounding whitespace, which Python's int() ignores. -/
def stripWS (cs : List Char) : List Char :=
  (((cs.dropWhile Char.isWhitespace).reverse).dropWhile Char.isWhitespace).reverse

/-- Numeric value of a list of decimal digit characters. -/
def digitsVal (ds : List Char) : ℕ :=
  ds.foldl (fun acc c => 10 * acc + (c.toNat - 48)) 0

/-- Model of Python's int() on speaker-identifier strings: optional surrounding
whitespace and one optional sign followed by one or more decimal digits.
(CPython also accepts underscore separators between digits and non-ASCII
digits; those never occur in speaker identifiers and are not modelled.) -/
def pyInt? (s : String) : Option Int :=
  match stripWS s.toList with
  | '-' :: ds => if 0 < ds.length ∧ ds.all Char.isDigit = true then some (-(digitsVal ds : Int)) else none
  | '+' :: ds => if 0 < ds.length ∧ ds.all Char.isDigit = true then some ((digitsVal ds : ℕ) : Int) else none
  | ds => if 0 < ds.length ∧ ds.all Char.isDigit = true then some ((digitsVal ds : ℕ) : Int) else none

/-- Dot product of two embedding vectors, np.dot on 1-d arrays.  On the
equal-length inputs the pipeline feeds it this is the mathematical dot
product; the 1-d shape check that np.dot performs is modelled separately in
cosine_similarity_checked. -/
def dot (a b : List ℚ) : ℚ := (List.zipWith (fun x y => x * y) a b).sum

/-- cosine_similarity from the source (line 18): dot product divided by the
product of the Euclidean norms, np.linalg.norm a = sqrt (dot a a). -/
noncomputable def cosine_similarity (a b : List ℚ) : ℝ :=
  ((dot a b : ℚ) : ℝ) / (Real.sqrt ((dot a a : ℚ) : ℝ) * Real.sqrt ((dot b b : ℚ) : ℝ))

/-- cosine_similarity together with the shape check np.dot performs: a 1-d
shape mismatch raises ValueError ("shapes not aligned").  Division by a zero
norm does NOT raise in numpy — it emits a RuntimeWarning and yields nan, which
the caller receives as an ordinary float. -/
noncomputable def cosine_similarity_checked (a b : List ℚ) : Except String ℝ :=
  if a.length = b.length then .ok (cosine_similarity a b)
  else .error "shapes not aligned"

/-- Elementwise sum of two vectors (numpy broadcast addition on equal shapes). -/
def vecAdd (a b : List ℚ) : List ℚ := List.zipWith (fun x y => x + y) a b

/-- np.mean(embeddings, axis=0): elementwise arithmetic mean of a nonempty
list of vectors.  get_speaker_centroids only calls it on a speaker's nonempty
embedding list; the empty case is unreachable. -/
def vecMean : List (List ℚ) → List ℚ
  | [] => []
  | v :: rest => (rest.foldl vecAdd v).map (fun x => x / ((rest.length + 1 : ℕ) : ℚ))

/-- First loop of get_speaker_centroids (lines 28-32): group each segment's
embedding under its speakerId, keys in first-appearance order, embeddings of
one speaker in segment order. -/
def collectEmb : List (String × List (List ℚ)) → List Segment → List (String × List (List ℚ))
  | d, [] => d
  | d, seg :: rest =>
    collectEmb
      (match dlookup seg.speakerId d with
       | some embs => dset seg.speakerId (embs ++ [seg.embedding]) d
       | none => d ++ [(seg.speakerId, [seg.embedding])])
      rest

/-- get_speaker_centroids from the source (line 25): average embedding per
speaker, keys in first-appearance order. -/
def get_speaker_centroids (segments : List Segment) : List (String × List ℚ) :=
  (collectEmb [] segments).map (fun p => (p.1, vecMean p.2))

/-- Message standing for the ValueError that Python's int() raises on a
non-numeric string. -/
def intErrMsg : String := "invalid literal for int() with base 10"

/-- int(sid) applied to every key in iteration order, as the generator inside
the max on line 50 does; the first non-numeric key raises ValueError. -/
def parseIds : List (String × List ℚ) → Except String (List Int)
  | [] => .ok []
  | p :: rest =>
    match pyInt? p.1 with
    | none => .error intErrMsg
    | some n =>
      match parseIds rest with
      | .error msg => .error msg
      | .ok ns => .ok (n :: ns)

/-- Line 50 of the source: next_id = max(int(sid) for sid in existing) + 1 when
the existing registry is nonempty, else 1.  Evaluating the max forces int(sid)
on EVERY existing key, so one non-numeric key makes the whole call raise. -/
def computeNextId (existing : List (String × List ℚ)) : Except String Int :=
  if existing.isEmpty then .ok 1
  else
    match parseIds existing with
    | .error msg => .error msg
    | .ok ns => .ok (ns.foldl max (ns.headD 0) + 1)

/-- Inner loop of map_speakers (lines 53-60): best_sim starts at the threshold
and is raised only by a strictly larger similarity, best_match remembering the
key that last raised it. -/
noncomputable def bestExisting (new_centroid : List ℚ) (existing : List (String × List ℚ))
    (threshold : ℝ) : ℝ × Option String :=
  existing.foldl
    (fun acc p =>
      if cosine_similarity new_centroid p.2 > acc.1 then
        (cosine_similarity new_centroid p.2, some p.1)
      else acc)
    (threshold, none)

/-- Outer loop of map_speakers (lines 52-67).  Python's `if best_match:` is a
truthiness test: both None and the empty string fall through to minting. -/
noncomputable def assignSpeakers (existing : List (String × List ℚ)) (threshold : ℝ) :
    List (String × List ℚ) → Int → List (String × String)
  | [], _ => []
  | (sid, c) :: rest, next_id =>
    match (bestExisting c existing threshold).2 with
    | some g =>
      if g = "" then (sid, toString next_id) :: assignSpeakers existing threshold rest (next_id + 1)
      else (sid, g) :: assignSpeakers existing threshold rest next_id
    | none => (sid, toString next_id) :: assignSpeakers existing threshold rest (next_id + 1)

/-- map_speakers from the source (line 40): next_id is computed first (and can
raise), then each new speaker is matched independently against the existing
centroids. -/
noncomputable def map_speakers (new_centroids existing_centroids : List (String × List ℚ))
    (threshold : ℝ) : Except String (List (String × String)) :=
  match computeNextId existing_centroids with
  | .error msg => .error msg
  | .ok next_id => .ok (assignSpeakers existing_centroids threshold new_centroids next_id)

/-- Loop state of merge_chunks: the accumulated output segments, the global
speaker registry, and the running duration maximum. -/
structure MergeState where
  all_segments : List Segment
  global_centroids : List (String × List ℚ)
  total_duration : ℚ
deriving DecidableEq

/-- Lines 104-107 of the source: register each mapping target that is not yet a
registry key, with the new chunk's centroid for the mapped local speaker.  The
getD default is unreachable: every mapping key is a chunk_centroids key. -/
def updateGlobals (speaker_map : List (String × String)) (chunk_centroids : List (String × List ℚ))
    (g : List (String × List ℚ)) : List (String × List ℚ) :=
  speaker_map.foldl
    (fun acc q => if dmemb q.2 acc then acc else acc ++ [(q.2, (dlookup q.1 chunk_centroids).getD [])])
    g

/-- One iteration of the loop of merge_chunks (lines 84-127) on the chunk at
position i with its offset.  An empty chunk is skipped whole (line 89), chunk 0
gets the identity speaker map and replaces the registry by its own centroids
(lines 96-99), later chunks go through map_speakers with the default threshold
0.85 and extend the registry (lines 100-107); a segment of a later chunk is
dropped when its adjusted start lies before chunk_offsets[i-1] + chunk_size
(line 115); the speaker_map subscript on line 121 always hits a key, modelled
with getD.  The configured overlap is not consulted anywhere. -/
noncomputable def process_chunk (chunk_offsets : List ℚ) (chunk_size : ℚ) (st : MergeState)
    (i : ℕ) (data : ChunkData) (offset : ℚ) : Except String MergeState :=
  if data.segments.isEmpty then .ok st
  else
    let chunk_centroids := get_speaker_centroids data.segments
    match
      (if i = 0 then
        Except.ok (chunk_centroids.map (fun p => (p.1, p.1)), chunk_centroids)
      else
        match map_speakers chunk_centroids st.global_centroids 0.85 with
        | .error msg => .error msg
        | .ok m => .ok (m, updateGlobals m chunk_centroids st.global_centroids)) with
    | .error msg => .error msg
    | .ok (speaker_map, new_globals) =>
      .ok { all_segments := st.all_segments ++ data.segments.filterMap (fun seg =>
              if 0 < i ∧ seg.startTimeSeconds + offset < chunk_offsets.getD (i - 1) 0 + chunk_size
              then none
              else some { startTimeSeconds := seg.startTimeSeconds + offset,
                          endTimeSeconds := seg.endTimeSeconds + offset,
                          speakerId := (dlookup seg.speakerId speaker_map).getD "",
                          qualityScore := seg.qualityScore,
                          embedding := seg.embedding }),
            global_centroids := new_globals,
            total_duration := max st.total_duration (data.durationSeconds + offset) }

/-- The enumerated loop of merge_chunks over zip(chunk_files, chunk_offsets). -/
noncomputable def mergeLoop (chunk_offsets : List ℚ) (chunk_size : ℚ) :
    List (ChunkData × ℚ) → ℕ → MergeState → Except String MergeState
  | [], _, st => .ok st
  | (d, off) :: rest, i, st =>
    match process_chunk chunk_offsets chunk_size st i d off with
    | .error msg => .error msg
    | .ok st' => mergeLoop chunk_offsets chunk_size rest (i + 1) st'

/-- Sort key of line 130: ascending startTimeSeconds.  Python's list.sort is
stable; List.mergeSort is its model. -/
def segLE (a b : Segment) : Bool := decide (a.startTimeSeconds ≤ b.startTimeSeconds)

/-- Initial loop state: no segments, empty registry, total_duration = 0. -/
def initState : MergeState :=
  { all_segments := [], global_centroids := [], total_duration := 0 }

/-- The merged record merge_chunks builds (lines 133-140), minus the filesystem
timestamp. -/
structure MergeResult where
  audioFile : String
  configMerged : Bool
  configChunks : ℕ
  durationSeconds : ℚ
  segments : List Segment
  speakerCount : ℕ
deriving DecidableEq

/-- merge_chunks from the source (line 72).  The overlap argument is accepted
and never used, exactly as in the source. -/
noncomputable def merge_chunks (chunks : List ChunkData) (chunk_offsets : List ℚ)
    (chunk_size overlap : ℚ) : Except String MergeResult :=
  match mergeLoop chunk_offsets chunk_size (chunks.zip chunk_offsets) 0 initState with
  | .error msg => .error msg
  | .ok st =>
    .ok { audioFile := "merged", configMerged := true, configChunks := chunks.length,
          durationSeconds := st.total_duration,
          segments := st.all_segments.mergeSort segLE,
          speakerCount := st.global_centroids.length }

/-! ### Association-list (dict) lemmas -/

/-- Keys of a dict model, in insertion order. -/
def dkeys {β : Type} (d : List (String × β)) : List String := d.map Prod.fst

theorem dlookup_isSome_iff_mem_dkeys {β : Type} (k : String) (d : List (String × β)) :
    (dlookup k d).isSome = true ↔ k ∈ dkeys d := by
  induction d with
  | nil => simp [dlookup, dkeys]
  | cons p rest ih =>
    by_cases h : p.1 = k
    · simp [dlookup, dkeys, h]
    · simp only [dlookup, dkeys, List.map_cons, List.mem_cons, if_neg h]
      rw [dkeys] at ih
      rw [ih]
      constructor
      · exact fun hm => Or.inr hm
      · rintro (rfl | hm)
        · exact absurd rfl h
        · exact hm

theorem dlookup_eq_some_mem {β : Type} {k : String} {v : β} {d : List (String × β)}
    (h : dlookup k d = some v) : (k, v) ∈ d := by
  induction d with
  | nil => simp [dlookup] at h
  | cons p rest ih =>
    obtain ⟨k', v'⟩ := p
    by_cases hp : k' = k
    · rw [dlookup, if_pos hp] at h
      have hv : v' = v := by injection h
      rw [hp, hv] at *
      exact List.mem_cons_self _ _
    · rw [dlookup, if_neg hp] at h
      exact List.mem_cons_of_mem _ (ih h)

theorem dlookup_append {β : Type} (k : String) (d₁ d₂ : List (String × β)) :
    dlookup k (d₁ ++ d₂) =
      match dlookup k d₁ with
      | some v => some v
      | none => dlookup k d₂ := by
  induction d₁ with
  | nil => simp [dlookup]
  | cons p rest ih =>
    by_cases hp : p.1 = k
    · simp [dlookup, hp]
    · simp [dlookup, hp, ih]

theorem dlookup_append_of_some {β : Type} {k : String} {v : β} {d₁ : List (String × β)}
    (d₂ : List (String × β)) (h : dlookup k d₁ = some v) :
    dlookup k (d₁ ++ d₂) = some v := by
  rw [dlookup_append, h]

theorem dmemb_append_left {β : Type} {k : String} {d₁ : List (String × β)}
    (d₂ : List (String × β)) (h : dmemb k d₁ = true) : dmemb k (d₁ ++ d₂) = true := by
  rw [dmemb] at h ⊢
  obtain ⟨v, hv⟩ := Option.isSome_iff_exists.mp h
  rw [dlookup_append_of_some d₂ hv]
  rfl

theorem dkeys_dset {β : Type} (k : String) (v : β) (d : List (String × β)) :
    dkeys (dset k v d) = dkeys d := by
  induction d with
  | nil => rfl
  | cons p rest ih =>
    by_cases hp : p.1 = k
    · simp [dset, hp, dkeys]
    · simp only [dset, if_neg hp, dkeys, List.map_cons, List.cons.injEq, true_and]
      exact ih

theorem dlookup_map_snd {β γ : Type} (k : String) (f : β → γ) (d : List (String × β)) :
    dlookup k (d.map (fun p => (p.1, f p.2))) = (dlookup k d).map f := by
  induction d with
  | nil => rfl
  | cons p rest ih =>
    by_cases hp : p.1 = k
    · simp [dlookup, hp]
    · simp [dlookup, hp, ih]

theorem dlookup_identity_map {β : Type} {k : String} {d : List (String × β)}
    (h : k ∈ dkeys d) : dlookup k (d.map (fun p => (p.1, p.1))) = some k := by
  induction d with
  | nil => simp [dkeys] at h
  | cons p rest ih =>
    by_cases hp : p.1 = k
    · simp [dlookup, hp]
    · rw [List.map_cons, dlookup, if_neg hp]
      rw [dkeys, List.map_cons, List.mem_cons] at h
      rcases h with h | h
      · exact absurd h.symm hp
      · exact ih h

/-! ### Centroid-builder lemmas -/

theorem dkeys_collectEmb_nodup (segs : List Segment) (d : List (String × List (List ℚ)))
    (hd : (dkeys d).Nodup) : (dkeys (collectEmb d segs)).Nodup := by
  induction segs generalizing d with
  | nil => exact hd
  | cons s rest ih =>
    rw [collectEmb]
    cases h : dlookup s.speakerId d with
    | some embs =>
      apply ih
      rw [dkeys_dset]
      exact hd
    | none =>
      apply ih
      have hnm : s.speakerId ∉ dkeys d := by
        intro hmem
        have := (dlookup_isSome_iff_mem_dkeys s.speakerId d).mpr hmem
        rw [h] at this
        simp at this
      simp only [dkeys, List.map_append, List.map_cons, List.map_nil]
      exact List.Nodup.append hd (List.nodup_singleton _)
        (by
          intro x hx hy
          simp only [List.mem_singleton] at hy
          subst hy
          exact hnm hx)

theorem mem_dkeys_collectEmb_of_mem (segs : List Segment) (d : List (String × List (List ℚ)))
    {k : String} (hk : k ∈ dkeys d) : k ∈ dkeys (collectEmb d segs) := by
  induction segs generalizing d with
  | nil => exact hk
  | cons s rest ih =>
    rw [collectEmb]
    cases h : dlookup s.speakerId d with
    | some embs =>
      apply ih
      rw [dkeys_dset]
      exact hk
    | none =>
      apply ih
      simp only [dkeys, List.map_append]
      exact List.mem_append_left _ hk

theorem speakerId_mem_dkeys_collectEmb {s : Segment} (segs : List Segment)
    (d : List (String × List (List ℚ))) (hs : s ∈ segs) :
    s.speakerId ∈ dkeys (collectEmb d segs) := by
  induction segs generalizing d with
  | nil => simp at hs
  | cons s₀ rest ih =>
    rw [collectEmb]
    rcases List.mem_cons.mp hs with rfl | hs'
    · cases h : dlookup s.speakerId d with
      | some embs =>
        apply mem_dkeys_collectEmb_of_mem
        rw [dkeys_dset]
        exact (dlookup_isSome_iff_mem_dkeys _ _).mp (by rw [h]; rfl)
      | none =>
        apply mem_dkeys_collectEmb_of_mem
        simp [dkeys]
    · cases h : dlookup s₀.speakerId d with
      | some embs => exact ih _ hs'
      | none => exact ih _ hs'

theorem dkeys_get_speaker_centroids (segs : List Segment) :
    dkeys (get_speaker_centroids segs) = dkeys (collectEmb [] segs) := by
  rw [get_speaker_centroids, dkeys, dkeys, List.map_map]
  rfl

theorem dkeys_get_speaker_centroids_nodup (segs : List Segment) :
    (dkeys (get_speaker_centroids segs)).Nodup := by
  rw [dkeys_get_speaker_centroids]
  exact dkeys_collectEmb_nodup segs [] (by simp [dkeys])

theorem speakerId_mem_centroids {s : Segment} {segs : List Segment} (hs : s ∈ segs) :
    s.speakerId ∈ dkeys (get_speaker_centroids segs) := by
  rw [dkeys_get_speaker_centroids]
  exact speakerId_mem_dkeys_collectEmb segs [] hs

/-! ### computeNextId lemmas -/

theorem foldl_max_le_init (b : Int) (l : List Int) : b ≤ l.foldl max b := by
  induction l generalizing b with
  | nil => exact le_refl b
  | cons x xs ih => exact le_trans (le_max_left b x) (ih (max b x))

theorem foldl_max_le_of_mem {x : Int} {l : List Int} (b : Int) (hx : x ∈ l) :
    x ≤ l.foldl max b := by
  induction l generalizing b with
  | nil => simp at hx
  | cons y ys ih =>
    rcases List.mem_cons.mp hx with rfl | hm
    · exact le_trans (le_max_right b x) (foldl_max_le_init _ ys)
    · exact ih (max b y) hm

theorem parseIds_error_of_badkey {existing : List (String × List ℚ)} {k : String} {v : List ℚ}
    (hmem : (k, v) ∈ existing) (hbad : pyInt? k = none) :
    parseIds existing = .error intErrMsg := by
  induction existing with
  | nil => simp at hmem
  | cons p rest ih =>
    rcases List.mem_cons.mp hmem with rfl | hm
    · rw [parseIds, hbad]
    · rw [parseIds]
      cases hp : pyInt? p.1 with
      | none => rfl
      | some n => rw [ih hm]

theorem parseIds_ok_forall {existing : List (String × List ℚ)} {ns : List Int}
    (h : parseIds existing = .ok ns) :
    List.Forall₂ (fun (p : String × List ℚ) (n : Int) => pyInt? p.1 = some n) existing ns := by
  induction existing generalizing ns with
  | nil =>
    rw [parseIds] at h
    obtain rfl : ([] : List Int) = ns := by injection h
    exact List.Forall₂.nil
  | cons p rest ih =>
    rw [parseIds] at h
    cases hp : pyInt? p.1 with
    | none => rw [hp] at h; exact absurd h (by simp)
    | some n =>
      rw [hp] at h
      cases hr : parseIds rest with
      | error msg => rw [hr] at h; exact absurd h (by simp)
      | ok ms =>
        rw [hr] at h
        obtain rfl : n :: ms = ns := by injection h
        exact List.Forall₂.cons hp (ih hr)

theorem computeNextId_error_of_badkey {existing : List (String × List ℚ)} {k : String}
    {v : List ℚ} (hmem : (k, v) ∈ existing) (hbad : pyInt? k = none) :
    computeNextId existing = .error intErrMsg := by
  have hne : existing ≠ [] := by rintro rfl; simp at hmem
  rw [computeNextId, if_neg (by simpa using hne), parseIds_error_of_badkey hmem hbad]

/-- In a successful non-empty computeNextId every existing key parses to a
number strictly below the returned next id. -/
theorem forall₂_pyInt_exists_mem {l₁ : List (String × List ℚ)} {l₂ : List Int}
    (hall : List.Forall₂ (fun (p : String × List ℚ) (n : Int) => pyInt? p.1 = some n) l₁ l₂)
    {p : String × List ℚ} (hp : p ∈ l₁) : ∃ m ∈ l₂, pyInt? p.1 = some m := by
  induction hall with
  | nil => simp at hp
  | cons hrel hrest ih =>
    rcases List.mem_cons.mp hp with rfl | hm
    · exact ⟨_, List.mem_cons_self _ _, hrel⟩
    · obtain ⟨m, hm1, hm2⟩ := ih hm
      exact ⟨m, List.mem_cons_of_mem _ hm1, hm2⟩

theorem computeNextId_ok_bound {existing : List (String × List ℚ)} {n : Int}
    (hne : existing ≠ []) (h : computeNextId existing = .ok n) :
    ∀ p ∈ existing, ∃ m, pyInt? p.1 = some m ∧ m < n := by
  rw [computeNextId, if_neg (by simpa using hne)] at h
  cases hp : parseIds existing with
  | error msg => rw [hp] at h; exact absurd h (by simp)
  | ok ns =>
    rw [hp] at h
    have hn : ns.foldl max (ns.headD 0) + 1 = n := by injection h
    have hall := parseIds_ok_forall hp
    intro p hpmem
    obtain ⟨m, hmmem, hpm⟩ := forall₂_pyInt_exists_mem hall hpmem
    refine ⟨m, hpm, ?_⟩
    rw [← hn]
    exact lt_of_le_of_lt (foldl_max_le_of_mem (ns.headD 0) hmmem)
      (lt_add_of_pos_right _ Int.zero_lt_one)

/-- A successful nonempty computeNextId forces every existing key to be a
nonempty digit string; in particular no key is the empty string. -/
theorem computeNextId_ok_key_ne_empty {existing : List (String × List ℚ)} {n : Int}
    (hne : existing ≠ []) (h : computeNextId existing = .ok n) :
    ∀ p ∈ existing, p.1 ≠ "" := by
  intro p hp hcontra
  obtain ⟨m, hm, _⟩ := computeNextId_ok_bound hne h p hp
  rw [hcontra] at hm
  have h0 : pyInt? "" = none := by decide
  rw [h0] at hm
  exact Option.noConfusion hm

/-! ### bestExisting: the inner loop selects the first-seen maximum above the
threshold -/

theorem bestExisting_go (c : List ℚ) (l : List (String × List ℚ)) :
    ∀ (s : ℝ) (o : Option String),
    (l.foldl
        (fun acc p =>
          if cosine_similarity c p.2 > acc.1 then (cosine_similarity c p.2, some p.1) else acc)
        (s, o) = (s, o) ∧ ∀ p ∈ l, cosine_similarity c p.2 ≤ s) ∨
    (∃ l₁ q l₂, l = l₁ ++ q :: l₂ ∧
      l.foldl
        (fun acc p =>
          if cosine_similarity c p.2 > acc.1 then (cosine_similarity c p.2, some p.1) else acc)
        (s, o) = (cosine_similarity c q.2, some q.1) ∧
      s < cosine_similarity c q.2 ∧
      (∀ p ∈ l, cosine_similarity c p.2 ≤ cosine_similarity c q.2) ∧
      (∀ p ∈ l₁, cosine_similarity c p.2 < cosine_similarity c q.2)) := by
  induction l with
  | nil =>
    intro s o
    left
    constructor
    · rfl
    · intro p hp
      simp at hp
  | cons x xs ih =>
    intro s o
    rw [List.foldl_cons]
    by_cases hx : cosine_similarity c x.2 > s
    · rw [if_pos hx]
      rcases ih (cosine_similarity c x.2) (some x.1) with ⟨heq, hb⟩ | ⟨l₁, q, l₂, hsplit, heq, hlt, hall, hfirst⟩
      · right
        refine ⟨[], x, xs, rfl, heq, hx, ?_, ?_⟩
        · intro p hp
          rcases List.mem_cons.mp hp with rfl | hm
          · exact le_refl _
          · exact hb p hm
        · intro p hp
          simp at hp
      · right
        refine ⟨x :: l₁, q, l₂, by rw [List.cons_append, ← hsplit], heq, lt_trans hx hlt, ?_, ?_⟩
        · intro p hp
          rcases List.mem_cons.mp hp with rfl | hm
          · exact le_of_lt hlt
          · exact hall p hm
        · intro p hp
          rcases List.mem_cons.mp hp with rfl | hm
          · exact hlt
          · exact hfirst p hm
    · rw [if_neg hx]
      have hxle : cosine_similarity c x.2 ≤ s := not_lt.mp hx
      rcases ih s o with ⟨heq, hb⟩ | ⟨l₁, q, l₂, hsplit, heq, hlt, hall, hfirst⟩
      · left
        refine ⟨heq, ?_⟩
        intro p hp
        rcases List.mem_cons.mp hp with rfl | hm
        · exact hxle
        · exact hb p hm
      · right
        refine ⟨x :: l₁, q, l₂, by rw [List.cons_append, ← hsplit], heq, hlt, ?_, ?_⟩
        · intro p hp
          rcases List.mem_cons.mp hp with rfl | hm
          · exact le_trans hxle (le_of_lt hlt)
          · exact hall p hm
        · intro p hp
          rcases List.mem_cons.mp hp with rfl | hm
          · exact lt_of_le_of_lt hxle hlt
          · exact hfirst p hm

/-- The inner loop of map_speakers either leaves (threshold, None) untouched —
when no existing centroid is strictly more similar than the threshold — or
returns the first-seen existing speaker attaining the maximal similarity,
which is strictly above the threshold. -/
theorem bestExisting_spec (c : List ℚ) (t : ℝ) (l : List (String × List ℚ)) :
    (bestExisting c l t = (t, none) ∧ ∀ p ∈ l, cosine_similarity c p.2 ≤ t) ∨
    (∃ l₁ q l₂, l = l₁ ++ q :: l₂ ∧
      bestExisting c l t = (cosine_similarity c q.2, some q.1) ∧
      t < cosine_similarity c q.2 ∧
      (∀ p ∈ l, cosine_similarity c p.2 ≤ cosine_similarity c q.2) ∧
      (∀ p ∈ l₁, cosine_similarity c p.2 < cosine_similarity c q.2)) := by
  rw [bestExisting]
  exact bestExisting_go c l t none

/-! ### assignSpeakers lemmas -/

/-- Whether the outer loop mints a fresh id for the local centroid c: either no
existing centroid beats the threshold, or the winner is the empty string
(Python truthiness discards it). -/
noncomputable def mintedB (existing : List (String × List ℚ)) (threshold : ℝ) (c : List ℚ) : Bool :=
  match (bestExisting c existing threshold).2 with
  | none => true
  | some g => g == ""

/-- Number of freshly minted ids among the listed local speakers. -/
noncomputable def mintCount (existing : List (String × List ℚ)) (threshold : ℝ)
    (l : List (String × List ℚ)) : ℕ :=
  l.countP (fun p => mintedB existing threshold p.2)

theorem assignSpeakers_cons_none {ex : List (String × List ℚ)} {t : ℝ} {sid : String}
    {c : List ℚ} (rest : List (String × List ℚ)) (n : Int)
    (h : (bestExisting c ex t).2 = none) :
    assignSpeakers ex t ((sid, c) :: rest) n =
      (sid, toString n) :: assignSpeakers ex t rest (n + 1) := by
  rw [assignSpeakers, h]

theorem assignSpeakers_cons_mintE {ex : List (String × List ℚ)} {t : ℝ} {sid : String}
    {c : List ℚ} {g : String} (rest : List (String × List ℚ)) (n : Int)
    (h : (bestExisting c ex t).2 = some g) (hg : g = "") :
    assignSpeakers ex t ((sid, c) :: rest) n =
      (sid, toString n) :: assignSpeakers ex t rest (n + 1) := by
  rw [assignSpeakers, h]
  show (if g = "" then (sid, toString n) :: assignSpeakers ex t rest (n + 1)
        else (sid, g) :: assignSpeakers ex t rest n) = _
  rw [if_pos hg]

theorem assignSpeakers_cons_matched {ex : List (String × List ℚ)} {t : ℝ} {sid : String}
    {c : List ℚ} {g : String} (rest : List (String × List ℚ)) (n : Int)
    (h : (bestExisting c ex t).2 = some g) (hg : g ≠ "") :
    assignSpeakers ex t ((sid, c) :: rest) n = (sid, g) :: assignSpeakers ex t rest n := by
  rw [assignSpeakers, h]
  show (if g = "" then (sid, toString n) :: assignSpeakers ex t rest (n + 1)
        else (sid, g) :: assignSpeakers ex t rest n) = _
  rw [if_neg hg]

theorem assignSpeakers_keys (ex : List (String × List ℚ)) (t : ℝ) :
    ∀ (l : List (String × List ℚ)) (n : Int),
    (assignSpeakers ex t l n).map Prod.fst = l.map Prod.fst := by
  intro l
  induction l with
  | nil => intro n; rfl
  | cons x xs ih =>
    intro n
    obtain ⟨sid, c⟩ := x
    cases hb : (bestExisting c ex t).2 with
    | none =>
      rw [assignSpeakers_cons_none xs n hb]
      simp [ih]
    | some g =>
      by_cases hg : g = ""
      · rw [assignSpeakers_cons_mintE xs n hb hg]
        simp [ih]
      · rw [assignSpeakers_cons_matched xs n hb hg]
        simp [ih]

theorem assignSpeakers_lookup_matched {ex : List (String × List ℚ)} {t : ℝ}
    {l : List (String × List ℚ)} {sid : String} {c : List ℚ} {g : String}
    (hnd : (l.map Prod.fst).Nodup) (hmem : (sid, c) ∈ l)
    (hb : (bestExisting c ex t).2 = some g) (hg : g ≠ "") :
    ∀ n, dlookup sid (assignSpeakers ex t l n) = some g := by
  induction l with
  | nil => simp at hmem
  | cons x xs ih =>
    intro n
    obtain ⟨sid₀, c₀⟩ := x
    rcases List.mem_cons.mp hmem with heq | hm
    · have h1 : sid = sid₀ := congrArg Prod.fst heq
      have h2 : c = c₀ := congrArg Prod.snd heq
      subst h1
      subst h2
      rw [assignSpeakers_cons_matched xs n hb hg, dlookup, if_pos rfl]
    · have hsidmem : sid ∈ xs.map Prod.fst := by
        refine List.mem_map.mpr ⟨(sid, c), hm, rfl⟩
      have hne : sid₀ ≠ sid := by
        rw [List.map_cons, List.nodup_cons] at hnd
        intro hcontra
        rw [hcontra] at hnd
        exact hnd.1 hsidmem
      have hnd' : (xs.map Prod.fst).Nodup := by
        rw [List.map_cons, List.nodup_cons] at hnd
        exact hnd.2
      cases hb₀ : (bestExisting c₀ ex t).2 with
      | none =>
        rw [assignSpeakers_cons_none xs n hb₀, dlookup, if_neg hne]
        exact ih hnd' hm _
      | some g₀ =>
        by_cases hg₀ : g₀ = ""
        · rw [assignSpeakers_cons_mintE xs n hb₀ hg₀, dlookup, if_neg hne]
          exact ih hnd' hm _
        · rw [assignSpeakers_cons_matched xs n hb₀ hg₀, dlookup, if_neg hne]
          exact ih hnd' hm _

theorem assignSpeakers_lookup_minted {ex : List (String × List ℚ)} {t : ℝ}
    {sid : String} {c : List ℚ} :
    ∀ (pre : List (String × List ℚ)) (post : List (String × List ℚ)),
    (((pre ++ (sid, c) :: post)).map Prod.fst).Nodup →
    mintedB ex t c = true →
    ∀ n : Int, dlookup sid (assignSpeakers ex t (pre ++ (sid, c) :: post) n) =
      some (toString (n + (mintCount ex t pre : ℤ))) := by
  intro pre
  induction pre with
  | nil =>
    intro post hnd hmint n
    rw [List.nil_append]
    have hcnt : toString (n + (mintCount ex t ([] : List (String × List ℚ)) : ℤ)) = toString n := by
      rw [mintCount, List.countP_nil]
      norm_num
    rw [hcnt]
    cases hb : (bestExisting c ex t).2 with
    | none => rw [assignSpeakers_cons_none post n hb, dlookup, if_pos rfl]
    | some g =>
      rw [mintedB, hb] at hmint
      have hg : g = "" := by
        simpa using hmint
      rw [assignSpeakers_cons_mintE post n hb hg, dlookup, if_pos rfl]
  | cons x pre' ih =>
    intro post hnd hmint n
    obtain ⟨sid₀, c₀⟩ := x
    have hne : sid₀ ≠ sid := by
      rw [List.cons_append, List.map_cons, List.nodup_cons] at hnd
      intro hcontra
      apply hnd.1
      rw [hcontra]
      refine List.mem_map.mpr ⟨(sid, c), ?_, rfl⟩
      exact List.mem_append_right _ (List.mem_cons_self _ _)
    have hnd' : (((pre' ++ (sid, c) :: post)).map Prod.fst).Nodup := by
      rw [List.cons_append, List.map_cons, List.nodup_cons] at hnd
      exact hnd.2
    rw [List.cons_append]
    cases hb₀ : (bestExisting c₀ ex t).2 with
    | none =>
      rw [assignSpeakers_cons_none _ n hb₀, dlookup, if_neg hne, ih post hnd' hmint (n + 1)]
      have hcnt : (mintCount ex t ((sid₀, c₀) :: pre') : ℤ) = (mintCount ex t pre' : ℤ) + 1 := by
        rw [mintCount, mintCount, List.countP_cons]
        have : mintedB ex t c₀ = true := by rw [mintedB, hb₀]
        simp [this]
      rw [hcnt]
      congr 1
      ring
    | some g₀ =>
      by_cases hg₀ : g₀ = ""
      · rw [assignSpeakers_cons_mintE _ n hb₀ hg₀, dlookup, if_neg hne, ih post hnd' hmint (n + 1)]
        have hcnt : (mintCount ex t ((sid₀, c₀) :: pre') : ℤ) = (mintCount ex t pre' : ℤ) + 1 := by
          rw [mintCount, mintCount, List.countP_cons]
          have : mintedB ex t c₀ = true := by
            rw [mintedB, hb₀]
            simpa using hg₀
          simp [this]
        rw [hcnt]
        congr 1
        ring
      · rw [assignSpeakers_cons_matched _ n hb₀ hg₀, dlookup, if_neg hne, ih post hnd' hmint n]
        have hcnt : (mintCount ex t ((sid₀, c₀) :: pre') : ℤ) = (mintCount ex t pre' : ℤ) := by
          rw [mintCount, mintCount, List.countP_cons]
          have : mintedB ex t c₀ = false := by
            rw [mintedB, hb₀]
            simpa using hg₀
          simp [this]
        rw [hcnt]

/-! ### map_speakers lemmas -/

theorem map_speakers_ok_iff {newC ex : List (String × List ℚ)} {t : ℝ}
    {m : List (String × String)} :
    map_speakers newC ex t = .ok m ↔
      ∃ n, computeNextId ex = .ok n ∧ m = assignSpeakers ex t newC n := by
  rw [map_speakers]
  cases h : computeNextId ex with
  | error msg =>
    constructor
    · intro hc
      exact absurd hc (by simp)
    · rintro ⟨n, hn, _⟩
      exact Except.noConfusion hn
  | ok n =>
    constructor
    · intro hc
      have hc' : Except.ok (assignSpeakers ex t newC n) = Except.ok m := hc
      have : assignSpeakers ex t newC n = m := by injection hc'
      exact ⟨n, rfl, this.symm⟩
    · rintro ⟨n', hn', rfl⟩
      have he : n = n' := by injection hn'
      rw [← he]

theorem map_speakers_error_of_badkey {ex : List (String × List ℚ)} {k : String}
    {v : List ℚ} (newC : List (String × List ℚ)) (t : ℝ)
    (hmem : (k, v) ∈ ex) (hbad : pyInt? k = none) :
    map_speakers newC ex t = .error intErrMsg := by
  rw [map_speakers, computeNextId_error_of_badkey hmem hbad]

/-! ### updateGlobals lemmas -/

theorem updateGlobals_cons (q : String × String) (m : List (String × String))
    (cc g : List (String × List ℚ)) :
    updateGlobals (q :: m) cc g =
      updateGlobals m cc
        (if dmemb q.2 g then g else g ++ [(q.2, (dlookup q.1 cc).getD [])]) := rfl

theorem updateGlobals_mono (m : List (String × String)) (cc : List (String × List ℚ)) :
    ∀ g, ∃ tail, updateGlobals m cc g = g ++ tail := by
  induction m with
  | nil => exact fun g => ⟨[], (List.append_nil g).symm⟩
  | cons q rest ih =>
    intro g
    rw [updateGlobals_cons]
    by_cases hq : dmemb q.2 g = true
    · rw [if_pos hq]
      exact ih g
    · rw [if_neg hq]
      obtain ⟨tail, ht⟩ := ih (g ++ [(q.2, (dlookup q.1 cc).getD [])])
      exact ⟨(q.2, (dlookup q.1 cc).getD []) :: tail, by rw [ht, List.append_assoc]; rfl⟩

theorem dlookup_updateGlobals_of_some {k : String} {v : List ℚ} {g : List (String × List ℚ)}
    (m : List (String × String)) (cc : List (String × List ℚ))
    (h : dlookup k g = some v) : dlookup k (updateGlobals m cc g) = some v := by
  obtain ⟨tail, ht⟩ := updateGlobals_mono m cc g
  rw [ht]
  exact dlookup_append_of_some tail h

theorem dmemb_updateGlobals_of_mem_left {k : String} {g : List (String × List ℚ)}
    (m : List (String × String)) (cc : List (String × List ℚ))
    (h : dmemb k g = true) : dmemb k (updateGlobals m cc g) = true := by
  obtain ⟨tail, ht⟩ := updateGlobals_mono m cc g
  rw [ht]
  exact dmemb_append_left tail h

theorem dmemb_append_self (k : String) (v : List ℚ) (g : List (String × List ℚ)) :
    dmemb k (g ++ [(k, v)]) = true := by
  rw [dmemb, dlookup_append]
  cases h : dlookup k g with
  | some w => rfl
  | none => rw [dlookup, if_pos rfl]; rfl

theorem dlookup_append_singleton_ne {β : Type} {k k' : String} (v : β)
    (g : List (String × β)) (hne : k' ≠ k) :
    dlookup k (g ++ [(k', v)]) = dlookup k g := by
  rw [dlookup_append]
  cases h : dlookup k g with
  | some w => rfl
  | none => rw [dlookup, if_neg hne]; rfl

theorem updateGlobals_nodup (m : List (String × String)) (cc : List (String × List ℚ)) :
    ∀ g, (dkeys g).Nodup → (dkeys (updateGlobals m cc g)).Nodup := by
  induction m with
  | nil => exact fun g h => h
  | cons q rest ih =>
    intro g hnd
    rw [updateGlobals_cons]
    by_cases hq : dmemb q.2 g = true
    · rw [if_pos hq]
      exact ih g hnd
    · rw [if_neg hq]
      apply ih
      have hnm : q.2 ∉ dkeys g := by
        intro hm
        exact hq (by rw [dmemb]; exact (dlookup_isSome_iff_mem_dkeys _ _).mpr hm)
      rw [dkeys, List.map_append]
      refine List.Nodup.append hnd (List.nodup_singleton _) ?_
      intro x hx hy
      simp only [List.map_cons, List.map_nil, List.mem_singleton] at hy
      subst hy
      exact hnm hx

theorem dmemb_updateGlobals_of_mem {s gid : String} (m : List (String × String))
    (cc : List (String × List ℚ)) (hmem : (s, gid) ∈ m) :
    ∀ g, dmemb gid (updateGlobals m cc g) = true := by
  induction m with
  | nil => simp at hmem
  | cons q rest ih =>
    intro g
    rw [updateGlobals_cons]
    rcases List.mem_cons.mp hmem with heq | hm
    · have hq2 : q.2 = gid := (congrArg Prod.snd heq).symm
      by_cases hq : dmemb q.2 g = true
      · rw [if_pos hq]
        rw [hq2] at hq
        exact dmemb_updateGlobals_of_mem_left rest cc hq
      · rw [if_neg hq]
        apply dmemb_updateGlobals_of_mem_left
        rw [hq2]
        exact dmemb_append_self gid _ g
    · by_cases hq : dmemb q.2 g = true
      · rw [if_pos hq]
        exact ih hm g
      · rw [if_neg hq]
        exact ih hm _

/-- Lines 105-107 register a freshly minted global id with the new chunk's
centroid for the (unique) local speaker that maps to it, and later chunks
never overwrite it. -/
theorem dlookup_updateGlobals_minted {sid gid : String} :
    ∀ (m : List (String × String)) (cc g : List (String × List ℚ)),
    (sid, gid) ∈ m → dmemb gid g = false →
    (∀ p ∈ m, p.2 = gid → p.1 = sid) →
    dlookup gid (updateGlobals m cc g) = some ((dlookup sid cc).getD []) := by
  intro m
  induction m with
  | nil => intro cc g hmem; simp at hmem
  | cons q rest ih =>
    intro cc g hmem hnot huniq
    rw [updateGlobals_cons]
    have hgnot : ¬ dmemb gid g = true := by rw [hnot]; exact Bool.false_ne_true
    rcases List.mem_cons.mp hmem with heq | hm
    · obtain ⟨h1, h2⟩ : q.1 = sid ∧ q.2 = gid :=
        ⟨(congrArg Prod.fst heq).symm, (congrArg Prod.snd heq).symm⟩
      rw [h2, if_neg hgnot, h1]
      apply dlookup_updateGlobals_of_some
      rw [dlookup_append]
      cases hl : dlookup gid g with
      | some w =>
        exact absurd (by rw [dmemb, hl]; rfl) hgnot
      | none => rw [dlookup, if_pos rfl]
    · by_cases hq2 : q.2 = gid
      · have hq1 : q.1 = sid := huniq q (List.mem_cons_self _ _) hq2
        rw [hq2, if_neg hgnot, hq1]
        apply dlookup_updateGlobals_of_some
        rw [dlookup_append]
        cases hl : dlookup gid g with
        | some w =>
          exact absurd (by rw [dmemb, hl]; rfl) hgnot
        | none => rw [dlookup, if_pos rfl]
      · by_cases hq : dmemb q.2 g = true
        · rw [if_pos hq]
          exact ih cc g hm hnot (fun p hp => huniq p (List.mem_cons_of_mem _ hp))
        · rw [if_neg hq]
          apply ih cc _ hm
          · rw [dmemb, dlookup_append_singleton_ne _ g hq2, ← dmemb]
            exact hnot
          · exact fun p hp => huniq p (List.mem_cons_of_mem _ hp)

/-! ### process_chunk and mergeLoop structural lemmas -/

theorem filterMap_some_congr {α β : Type} {l : List α} {F : α → Option β} {G : α → β}
    (h : ∀ x ∈ l, F x = some (G x)) : l.filterMap F = l.map G := by
  induction l with
  | nil => rfl
  | cons x xs ih =>
    rw [List.filterMap_cons, h x (List.mem_cons_self _ _), List.map_cons,
      ih (fun y hy => h y (List.mem_cons_of_mem _ hy))]

/-- An empty chunk is a complete no-op: the state (accumulated segments,
registry, running duration maximum) passes through unchanged. -/
theorem process_chunk_empty_chunk (chunk_offsets : List ℚ) (chunk_size : ℚ) (st : MergeState)
    (i : ℕ) (dur : ℚ) (offset : ℚ) :
    process_chunk chunk_offsets chunk_size st i ⟨[], dur⟩ offset = .ok st := rfl

/-- Adjusting a segment by an offset, keeping its (already global) speaker id:
what chunk 0 emits. -/
def adjustSeg (off : ℚ) (seg : Segment) : Segment :=
  { startTimeSeconds := seg.startTimeSeconds + off,
    endTimeSeconds := seg.endTimeSeconds + off,
    speakerId := seg.speakerId,
    qualityScore := seg.qualityScore,
    embedding := seg.embedding }

theorem process_chunk_zero {offs : List ℚ} {size : ℚ} {st : MergeState} {d : ChunkData}
    {off : ℚ} (hne : d.segments ≠ []) :
    process_chunk offs size st 0 d off = .ok
      { all_segments := st.all_segments ++ d.segments.map (adjustSeg off),
        global_centroids := get_speaker_centroids d.segments,
        total_duration := max st.total_duration (d.durationSeconds + off) } := by
  have hemp : ¬ (d.segments.isEmpty = true) := by
    simp [List.isEmpty_iff, hne]
  have hbody : d.segments.filterMap (fun seg =>
      if 0 < (0 : ℕ) ∧ seg.startTimeSeconds + off < offs.getD (0 - 1) 0 + size
      then none
      else some { startTimeSeconds := seg.startTimeSeconds + off,
                  endTimeSeconds := seg.endTimeSeconds + off,
                  speakerId := (dlookup seg.speakerId
                    ((get_speaker_centroids d.segments).map (fun p => (p.1, p.1)))).getD "",
                  qualityScore := seg.qualityScore,
                  embedding := seg.embedding }) = d.segments.map (adjustSeg off) := by
    apply filterMap_some_congr
    intro seg hseg
    rw [if_neg (by simp)]
    rw [dlookup_identity_map (speakerId_mem_centroids hseg)]
    rfl
  have hraw : process_chunk offs size st 0 d off = .ok
      { all_segments := st.all_segments ++ d.segments.filterMap (fun seg =>
          if 0 < (0 : ℕ) ∧ seg.startTimeSeconds + off < offs.getD (0 - 1) 0 + size
          then none
          else some { startTimeSeconds := seg.startTimeSeconds + off,
                      endTimeSeconds := seg.endTimeSeconds + off,
                      speakerId := (dlookup seg.speakerId
                        ((get_speaker_centroids d.segments).map (fun p => (p.1, p.1)))).getD "",
                      qualityScore := seg.qualityScore,
                      embedding := seg.embedding }),
        global_centroids := get_speaker_centroids d.segments,
        total_duration := max st.total_duration (d.durationSeconds + off) } := by
    rw [process_chunk, if_neg hemp]
    rfl
  rw [hraw, hbody]

theorem process_chunk_pos_err {offs : List ℚ} {size : ℚ} {st : MergeState} {d : ChunkData}
    {off : ℚ} {i : ℕ} {msg : String} (hne : d.segments ≠ []) (hi : i ≠ 0)
    (hm : map_speakers (get_speaker_centroids d.segments) st.global_centroids 0.85 = .error msg) :
    process_chunk offs size st i d off = .error msg := by
  have hemp : ¬ (d.segments.isEmpty = true) := by
    simp [List.isEmpty_iff, hne]
  simp only [process_chunk]
  rw [if_neg hemp, if_neg hi, hm]

theorem process_chunk_pos_ok {offs : List ℚ} {size : ℚ} {st : MergeState} {d : ChunkData}
    {off : ℚ} {i : ℕ} {m : List (String × String)} (hne : d.segments ≠ []) (hi : i ≠ 0)
    (hm : map_speakers (get_speaker_centroids d.segments) st.global_centroids 0.85 = .ok m) :
    process_chunk offs size st i d off = .ok
      { all_segments := st.all_segments ++ d.segments.filterMap (fun seg =>
          if 0 < i ∧ seg.startTimeSeconds + off < offs.getD (i - 1) 0 + size
          then none
          else some { startTimeSeconds := seg.startTimeSeconds + off,
                      endTimeSeconds := seg.endTimeSeconds + off,
                      speakerId := (dlookup seg.speakerId m).getD "",
                      qualityScore := seg.qualityScore,
                      embedding := seg.embedding }),
        global_centroids := updateGlobals m (get_speaker_centroids d.segments) st.global_centroids,
        total_duration := max st.total_duration (d.durationSeconds + off) } := by
  have hemp : ¬ (d.segments.isEmpty = true) := by
    simp [List.isEmpty_iff, hne]
  simp only [process_chunk]
  rw [if_neg hemp, if_neg hi, hm]

/-- Inversion of a successful step on a nonempty late chunk. -/
theorem process_chunk_pos_ok_inv {offs : List ℚ} {size : ℚ} {st st' : MergeState}
    {d : ChunkData} {off : ℚ} {i : ℕ} (hne : d.segments ≠ []) (hi : i ≠ 0)
    (h : process_chunk offs size st i d off = .ok st') :
    ∃ m, map_speakers (get_speaker_centroids d.segments) st.global_centroids 0.85 = .ok m ∧
      st' = { all_segments := st.all_segments ++ d.segments.filterMap (fun seg =>
                if 0 < i ∧ seg.startTimeSeconds + off < offs.getD (i - 1) 0 + size
                then none
                else some { startTimeSeconds := seg.startTimeSeconds + off,
                            endTimeSeconds := seg.endTimeSeconds + off,
                            speakerId := (dlookup seg.speakerId m).getD "",
                            qualityScore := seg.qualityScore,
                            embedding := seg.embedding }),
              global_centroids :=
                updateGlobals m (get_speaker_centroids d.segments) st.global_centroids,
              total_duration := max st.total_duration (d.durationSeconds + off) } := by
  cases hm : map_speakers (get_speaker_centroids d.segments) st.global_centroids 0.85 with
  | error msg =>
    rw [process_chunk_pos_err hne hi hm] at h
    exact Except.noConfusion h
  | ok m =>
    rw [process_chunk_pos_ok hne hi hm] at h
    have := Except.ok.inj h
    exact ⟨m, rfl, this.symm⟩

theorem mergeLoop_nil (offs : List ℚ) (size : ℚ) (i : ℕ) (st : MergeState) :
    mergeLoop offs size [] i st = .ok st := rfl

theorem mergeLoop_cons_ok {offs : List ℚ} {size : ℚ} {d : ChunkData} {off : ℚ}
    {rest : List (ChunkData × ℚ)} {i : ℕ} {st st' : MergeState}
    (h : process_chunk offs size st i d off = .ok st') :
    mergeLoop offs size ((d, off) :: rest) i st = mergeLoop offs size rest (i + 1) st' := by
  rw [mergeLoop, h]

theorem mergeLoop_cons_err {offs : List ℚ} {size : ℚ} {d : ChunkData} {off : ℚ}
    {rest : List (ChunkData × ℚ)} {i : ℕ} {st : MergeState} {msg : String}
    (h : process_chunk offs size st i d off = .error msg) :
    mergeLoop offs size ((d, off) :: rest) i st = .error msg := by
  rw [mergeLoop, h]

/-- Packaging of the loop's final state into the output record (lines 133-140). -/
def packResult (chunks : List ChunkData) (st : MergeState) : MergeResult :=
  { audioFile := "merged", configMerged := true, configChunks := chunks.length,
    durationSeconds := st.total_duration,
    segments := st.all_segments.mergeSort segLE,
    speakerCount := st.global_centroids.length }

theorem merge_chunks_ok_iff {chunks : List ChunkData} {offs : List ℚ} {size ov : ℚ}
    {r : MergeResult} :
    merge_chunks chunks offs size ov = .ok r ↔
      ∃ st, mergeLoop offs size (chunks.zip offs) 0 initState = .ok st ∧ r = packResult chunks st := by
  rw [merge_chunks]
  cases h : mergeLoop offs size (chunks.zip offs) 0 initState with
  | error msg =>
    constructor
    · intro hc
      exact absurd hc (by simp)
    · rintro ⟨st, hst, _⟩
      exact Except.noConfusion hst
  | ok st =>
    constructor
    · intro hc
      have hc' : Except.ok (packResult chunks st) = Except.ok r := hc
      exact ⟨st, rfl, (Except.ok.inj hc').symm⟩
    · rintro ⟨st', hst', rfl⟩
      have he : st = st' := Except.ok.inj hst'
      rw [← he]
      rfl

theorem merge_chunks_err {chunks : List ChunkData} {offs : List ℚ} {size ov : ℚ} {msg : String}
    (h : mergeLoop offs size (chunks.zip offs) 0 initState = .error msg) :
    merge_chunks chunks offs size ov = .error msg := by
  rw [merge_chunks, h]

/-! ### Registry invariants across the merge loop -/

/-- The registry invariant: global ids are pairwise distinct, and every
accumulated output segment's speakerId is a registry key. -/
def RegInv (st : MergeState) : Prop :=
  (dkeys st.global_centroids).Nodup ∧
    ∀ s ∈ st.all_segments, dmemb s.speakerId st.global_centroids = true

theorem process_chunk_preserves_inv {offs : List ℚ} {size : ℚ} {st st' : MergeState}
    {d : ChunkData} {off : ℚ} {i : ℕ} (hi : i ≠ 0)
    (h : process_chunk offs size st i d off = .ok st') (hinv : RegInv st) : RegInv st' := by
  by_cases hne : d.segments = []
  · obtain ⟨segs, dur⟩ := d
    simp only at hne
    subst hne
    rw [process_chunk_empty_chunk] at h
    rw [← Except.ok.inj h]
    exact hinv
  · obtain ⟨m, hm, rfl⟩ := process_chunk_pos_ok_inv hne hi h
    obtain ⟨n, hn, rfl⟩ := map_speakers_ok_iff.mp hm
    constructor
    · exact updateGlobals_nodup _ _ _ hinv.1
    · intro s hs
      rw [List.mem_append] at hs
      rcases hs with hs | hs
      · exact dmemb_updateGlobals_of_mem_left _ _ (hinv.2 s hs)
      · obtain ⟨seg, hseg, hFs⟩ := List.mem_filterMap.mp hs
        by_cases hc : 0 < i ∧ seg.startTimeSeconds + off < offs.getD (i - 1) 0 + size
        · rw [if_pos hc] at hFs
          exact Option.noConfusion hFs
        · rw [if_neg hc] at hFs
          have hs' := Option.some.inj hFs
          have hsid : s.speakerId =
              (dlookup seg.speakerId
                (assignSpeakers st.global_centroids 0.85 (get_speaker_centroids d.segments) n)).getD "" := by
            rw [← hs']
          have hmemkey : seg.speakerId ∈
              dkeys (assignSpeakers st.global_centroids 0.85 (get_speaker_centroids d.segments) n) := by
            rw [dkeys, assignSpeakers_keys]
            exact speakerId_mem_centroids hseg
          obtain ⟨gid, hgid⟩ := Option.isSome_iff_exists.mp
            ((dlookup_isSome_iff_mem_dkeys _ _).mpr hmemkey)
          rw [hgid] at hsid
          have : s.speakerId = gid := hsid
          rw [this]
          exact dmemb_updateGlobals_of_mem _ _ (dlookup_eq_some_mem hgid) _

theorem process_chunk_preserves_lookup {offs : List ℚ} {size : ℚ} {st st' : MergeState}
    {d : ChunkData} {off : ℚ} {i : ℕ} {g : String} {v : List ℚ} (hi : i ≠ 0)
    (h : process_chunk offs size st i d off = .ok st')
    (hg : dlookup g st.global_centroids = some v) :
    dlookup g st'.global_centroids = some v := by
  by_cases hne : d.segments = []
  · obtain ⟨segs, dur⟩ := d
    simp only at hne
    subst hne
    rw [process_chunk_empty_chunk] at h
    rw [← Except.ok.inj h]
    exact hg
  · obtain ⟨m, hm, rfl⟩ := process_chunk_pos_ok_inv hne hi h
    exact dlookup_updateGlobals_of_some m _ hg

theorem mergeLoop_preserves_inv {offs : List ℚ} {size : ℚ} :
    ∀ (pairs : List (ChunkData × ℚ)) (i : ℕ) (st st' : MergeState), i ≠ 0 →
    mergeLoop offs size pairs i st = .ok st' → RegInv st → RegInv st' := by
  intro pairs
  induction pairs with
  | nil =>
    intro i st st' _ h hinv
    rw [mergeLoop_nil] at h
    rw [← Except.ok.inj h]
    exact hinv
  | cons p rest ih =>
    intro i st st' hi h hinv
    obtain ⟨d, off⟩ := p
    cases hp : process_chunk offs size st i d off with
    | error msg =>
      rw [mergeLoop_cons_err hp] at h
      exact Except.noConfusion h
    | ok st₁ =>
      rw [mergeLoop_cons_ok hp] at h
      exact ih (i + 1) st₁ st' (Nat.succ_ne_zero i) h
        (process_chunk_preserves_inv hi hp hinv)

theorem mergeLoop_preserves_lookup {offs : List ℚ} {size : ℚ} {g : String} {v : List ℚ} :
    ∀ (pairs : List (ChunkData × ℚ)) (i : ℕ) (st st' : MergeState), i ≠ 0 →
    mergeLoop offs size pairs i st = .ok st' →
    dlookup g st.global_centroids = some v →
    dlookup g st'.global_centroids = some v := by
  intro pairs
  induction pairs with
  | nil =>
    intro i st st' _ h hg
    rw [mergeLoop_nil] at h
    rw [← Except.ok.inj h]
    exact hg
  | cons p rest ih =>
    intro i st st' hi h hg
    obtain ⟨d, off⟩ := p
    cases hp : process_chunk offs size st i d off with
    | error msg =>
      rw [mergeLoop_cons_err hp] at h
      exact Except.noConfusion h
    | ok st₁ =>
      rw [mergeLoop_cons_ok hp] at h
      exact ih (i + 1) st₁ st' (Nat.succ_ne_zero i) h
        (process_chunk_preserves_lookup hi hp hg)

theorem regInv_init : RegInv initState := by
  constructor
  · simp [initState, dkeys]
  · intro s hs
    simp [initState] at hs

/-- Any successful run of the merge loop from the initial state ends with
pairwise-distinct registry keys and with every accumulated segment labelled by
a registry key. -/
theorem mergeLoop_start_inv {offs : List ℚ} {size : ℚ} {pairs : List (ChunkData × ℚ)}
    {st' : MergeState} (h : mergeLoop offs size pairs 0 initState = .ok st') : RegInv st' := by
  cases pairs with
  | nil =>
    rw [mergeLoop_nil] at h
    rw [← Except.ok.inj h]
    exact regInv_init
  | cons p rest =>
    obtain ⟨d, off⟩ := p
    by_cases hne : d.segments = []
    · obtain ⟨segs, dur⟩ := d
      simp only at hne
      subst hne
      rw [mergeLoop_cons_ok (process_chunk_empty_chunk offs size initState 0 dur off)] at h
      exact mergeLoop_preserves_inv rest 1 initState st' one_ne_zero h regInv_init
    · rw [mergeLoop_cons_ok (process_chunk_zero hne)] at h
      refine mergeLoop_preserves_inv rest 1 _ st' one_ne_zero h ?_
      constructor
      · exact dkeys_get_speaker_centroids_nodup d.segments
      · intro s hs
        simp only [initState, List.nil_append] at hs
        obtain ⟨seg, hseg, rfl⟩ := List.mem_map.mp hs
        rw [dmemb]
        refine (dlookup_isSome_iff_mem_dkeys _ _).mpr ?_
        have hadj : (adjustSeg off seg).speakerId = seg.speakerId := rfl
        rw [hadj]
        exact speakerId_mem_centroids hseg

/-! ### Cosine similarity: range and failure behaviour -/

theorem dot_self_nonneg (a : List ℚ) : 0 ≤ dot a a := by
  induction a with
  | nil => exact le_refl 0
  | cons x a' ih =>
    rw [dot, List.zipWith_cons_cons, List.sum_cons]
    exact add_nonneg (mul_self_nonneg x) ih

/-- Cauchy-Schwarz for the list dot product on equal-length vectors. -/
theorem dot_sq_le (a : List ℚ) : ∀ b : List ℚ, a.length = b.length →
    (dot a b) ^ 2 ≤ dot a a * dot b b := by
  induction a with
  | nil =>
    intro b hlen
    have hb : b = [] := List.eq_nil_of_length_eq_zero hlen.symm
    subst hb
    norm_num [dot]
  | cons x a' ih =>
    intro b hlen
    cases b with
    | nil => simp at hlen
    | cons y b' =>
      have hlen' : a'.length = b'.length := by
        simpa using hlen
      have hIH := ih b' hlen'
      have hA := dot_self_nonneg a'
      have hB := dot_self_nonneg b'
      have hd : dot (x :: a') (y :: b') = x * y + dot a' b' := by
        rw [dot, dot, List.zipWith_cons_cons, List.sum_cons]
      have hda : dot (x :: a') (x :: a') = x * x + dot a' a' := by
        rw [dot, dot, List.zipWith_cons_cons, List.sum_cons]
      have hdb : dot (y :: b') (y :: b') = y * y + dot b' b' := by
        rw [dot, dot, List.zipWith_cons_cons, List.sum_cons]
      rw [hd, hda, hdb]
      rcases hB.eq_or_lt with hB0 | hB0
      · have hD2 : dot a' b' ^ 2 ≤ 0 := by
          rw [← hB0, mul_zero] at hIH
          exact hIH
        have hD : dot a' b' = 0 := by
          have := le_antisymm hD2 (sq_nonneg _)
          have h2 : (2 : ℕ) ≠ 0 := by norm_num
          exact (pow_eq_zero_iff h2).mp this
        rw [hD, ← hB0]
        nlinarith [mul_nonneg hA (mul_self_nonneg y), sq_nonneg (x * y)]
      · nlinarith [sq_nonneg (dot b' b' * x - dot a' b' * y),
          mul_nonneg (sub_nonneg.mpr hIH) (sq_nonneg y),
          mul_nonneg (sub_nonneg.mpr hIH) (le_of_lt hB0),
          hB0, mul_nonneg hA (le_of_lt hB0)]

theorem cosine_similarity_mem_Icc {a b : List ℚ} (hlen : a.length = b.length)
    (ha : dot a a ≠ 0) (hb : dot b b ≠ 0) :
    -1 ≤ cosine_similarity a b ∧ cosine_similarity a b ≤ 1 := by
  have hA0 : (0 : ℝ) < ((dot a a : ℚ) : ℝ) := by
    have := lt_of_le_of_ne (dot_self_nonneg a) (Ne.symm ha)
    exact_mod_cast this
  have hB0 : (0 : ℝ) < ((dot b b : ℚ) : ℝ) := by
    have := lt_of_le_of_ne (dot_self_nonneg b) (Ne.symm hb)
    exact_mod_cast this
  have hcs : (((dot a b : ℚ) : ℝ)) ^ 2 ≤ ((dot a a : ℚ) : ℝ) * ((dot b b : ℚ) : ℝ) := by
    exact_mod_cast dot_sq_le a b hlen
  have hsq := Real.sqrt_le_sqrt hcs
  rw [Real.sqrt_sq_eq_abs, Real.sqrt_mul (le_of_lt hA0)] at hsq
  have hden : 0 < Real.sqrt ((dot a a : ℚ) : ℝ) * Real.sqrt ((dot b b : ℚ) : ℝ) :=
    mul_pos (Real.sqrt_pos.mpr hA0) (Real.sqrt_pos.mpr hB0)
  have habs : |cosine_similarity a b| ≤ 1 := by
    rw [cosine_similarity, abs_div, abs_of_pos hden]
    exact (div_le_one hden).mpr hsq
  exact abs_le.mp habs

theorem cosine_similarity_checked_ok {a b : List ℚ} (hlen : a.length = b.length) :
    cosine_similarity_checked a b = .ok (cosine_similarity a b) := by
  rw [cosine_similarity_checked, if_pos hlen]

theorem cosine_similarity_checked_mismatch {a b : List ℚ} (hlen : a.length ≠ b.length) :
    cosine_similarity_checked a b = .error "shapes not aligned" := by
  rw [cosine_similarity_checked, if_neg hlen]

/-! ### The final sort: sorted, a permutation, and stable -/

theorem segLE_trans : ∀ a b c : Segment, segLE a b → segLE b c → segLE a c := by
  intro a b c hab hbc
  simp only [segLE, decide_eq_true_eq] at hab hbc ⊢
  exact le_trans hab hbc

theorem segLE_total : ∀ a b : Segment, segLE a b || segLE b a := by
  intro a b
  simp only [segLE]
  rcases le_total a.startTimeSeconds b.startTimeSeconds with h | h
  · simp [h]
  · simp [h]

theorem filter_key_pairwise (q : ℚ) (m : List Segment) :
    (m.filter (fun s => decide (s.startTimeSeconds = q))).Pairwise
      (fun a b => segLE a b = true) := by
  induction m with
  | nil => exact List.Pairwise.nil
  | cons x xs ih =>
    rw [List.filter_cons]
    by_cases hx : x.startTimeSeconds = q
    · rw [if_pos (by simpa using hx)]
      refine List.Pairwise.cons ?_ ih
      intro y hy
      have hy' : y.startTimeSeconds = q := by
        have := List.of_mem_filter hy
        simpa using this
      simp [segLE, hx, hy']
    · rw [if_neg (by simpa using hx)]
      exact ih

/-- Stability of the final sort, elementwise: among segments sharing one start
time, the sorted output preserves the accumulation order exactly. -/
theorem mergeSort_filter_key (l : List Segment) (q : ℚ) :
    (l.mergeSort segLE).filter (fun s => decide (s.startTimeSeconds = q)) =
      l.filter (fun s => decide (s.startTimeSeconds = q)) := by
  have hsub : List.Sublist (l.filter (fun s => decide (s.startTimeSeconds = q)))
      (l.mergeSort segLE) :=
    List.sublist_mergeSort segLE_trans segLE_total (filter_key_pairwise q l)
      (List.filter_sublist l)
  have hsub2 : List.Sublist
      ((l.filter (fun s => decide (s.startTimeSeconds = q))).filter
        (fun s => decide (s.startTimeSeconds = q)))
      ((l.mergeSort segLE).filter (fun s => decide (s.startTimeSeconds = q))) :=
    List.Sublist.filter _ hsub
  rw [List.filter_filter] at hsub2
  have hff : (fun s : Segment => decide (s.startTimeSeconds = q) &&
      decide (s.startTimeSeconds = q)) = (fun s => decide (s.startTimeSeconds = q)) := by
    funext s
    rw [Bool.and_self]
  rw [hff] at hsub2
  have hperm : List.Perm
      ((l.mergeSort segLE).filter (fun s => decide (s.startTimeSeconds = q)))
      (l.filter (fun s => decide (s.startTimeSeconds = q))) :=
    (List.mergeSort_perm l segLE).filter _
  exact (List.Sublist.eq_of_length hsub2 hperm.length_eq.symm).symm

/-! ### Emitted-segment characterisation -/

theorem filterMap_emitted_starts (i : ℕ) (off bound : ℚ) (mm : List (String × String)) :
    ∀ segs : List Segment,
    ((segs.filterMap (fun seg =>
        if 0 < i ∧ seg.startTimeSeconds + off < bound then none
        else some ({ startTimeSeconds := seg.startTimeSeconds + off,
                     endTimeSeconds := seg.endTimeSeconds + off,
                     speakerId := (dlookup seg.speakerId mm).getD "",
                     qualityScore := seg.qualityScore,
                     embedding := seg.embedding } : Segment))).map (fun s => s.startTimeSeconds)) =
      (segs.filter (fun seg =>
        !(decide (0 < i) && decide (seg.startTimeSeconds + off < bound)))).map
        (fun seg => seg.startTimeSeconds + off) := by
  intro segs
  induction segs with
  | nil => rfl
  | cons s ss ih =>
    rw [List.filterMap_cons, List.filter_cons]
    by_cases hc : 0 < i ∧ s.startTimeSeconds + off < bound
    · rw [if_pos hc]
      have hb : (!(decide (0 < i) && decide (s.startTimeSeconds + off < bound))) = false := by
        simp [hc.1, hc.2]
      rw [hb]
      rw [if_neg (by simp)]
      exact ih
    · rw [if_neg hc]
      have hb : (!(decide (0 < i) && decide (s.startTimeSeconds + off < bound))) = true := by
        simp only [Bool.not_and, Bool.or_eq_true, Bool.not_eq_true', decide_eq_false_iff_not]
        exact not_and_or.mp hc
      rw [hb, if_pos rfl, List.map_cons, List.map_cons, ih]

/-- Whatever the speaker mapping of the step turned out to be, a successful
step appends exactly the segments passing the line-115 test, in order. -/
theorem process_chunk_ok_emitted {offs : List ℚ} {size : ℚ} {st st' : MergeState}
    {i : ℕ} {d : ChunkData} {off : ℚ}
    (h : process_chunk offs size st i d off = .ok st') :
    ∃ mm : List (String × String),
      st'.all_segments = st.all_segments ++ d.segments.filterMap (fun seg =>
        if 0 < i ∧ seg.startTimeSeconds + off < offs.getD (i - 1) 0 + size then none
        else some { startTimeSeconds := seg.startTimeSeconds + off,
                    endTimeSeconds := seg.endTimeSeconds + off,
                    speakerId := (dlookup seg.speakerId mm).getD "",
                    qualityScore := seg.qualityScore,
                    embedding := seg.embedding }) := by
  by_cases hne : d.segments = []
  · refine ⟨[], ?_⟩
    obtain ⟨segs, dur⟩ := d
    simp only at hne
    subst hne
    rw [process_chunk_empty_chunk] at h
    rw [← Except.ok.inj h]
    simp
  · by_cases hi : i = 0
    · subst hi
      refine ⟨(get_speaker_centroids d.segments).map (fun p => (p.1, p.1)), ?_⟩
      have hemp : ¬ (d.segments.isEmpty = true) := by
        simp [List.isEmpty_iff, hne]
      have hraw : process_chunk offs size st 0 d off = .ok
          { all_segments := st.all_segments ++ d.segments.filterMap (fun seg =>
              if 0 < (0 : ℕ) ∧ seg.startTimeSeconds + off < offs.getD (0 - 1) 0 + size
              then none
              else some { startTimeSeconds := seg.startTimeSeconds + off,
                          endTimeSeconds := seg.endTimeSeconds + off,
                          speakerId := (dlookup seg.speakerId
                            ((get_speaker_centroids d.segments).map (fun p => (p.1, p.1)))).getD "",
                          qualityScore := seg.qualityScore,
                          embedding := seg.embedding }),
            global_centroids := get_speaker_centroids d.segments,
            total_duration := max st.total_duration (d.durationSeconds + off) } := by
        rw [process_chunk, if_neg hemp]
        rfl
      rw [hraw] at h
      rw [← Except.ok.inj h]
    · obtain ⟨m, hm, rfl⟩ := process_chunk_pos_ok_inv hne hi h
      exact ⟨m, rfl⟩

/-! ### Claims -/

/-- C1: a segment of the chunk at position i survives into the merge exactly
when NOT (i > 0 and its offset-adjusted start is strictly below
chunk_offsets[i-1] + chunk_size); in particular a segment whose adjusted start
equals the boundary exactly is kept, and the configured overlap value has no
influence at all on the merge output (merge_chunks never reads it). -/
theorem C1_dedup_boundary :
    (∀ (chunks : List ChunkData) (offs : List ℚ) (size ov ov' : ℚ),
      merge_chunks chunks offs size ov = merge_chunks chunks offs size ov') ∧
    (∀ (offs : List ℚ) (size : ℚ) (st st' : MergeState) (i : ℕ) (d : ChunkData) (off : ℚ),
      process_chunk offs size st i d off = .ok st' →
      (st'.all_segments.drop st.all_segments.length).map (fun s => s.startTimeSeconds) =
        (d.segments.filter (fun seg =>
          !(decide (0 < i) &&
            decide (seg.startTimeSeconds + off < offs.getD (i - 1) 0 + size)))).map
          (fun seg => seg.startTimeSeconds + off)) := by
  constructor
  · intro chunks offs size ov ov'
    rfl
  · intro offs size st st' i d off h
    obtain ⟨mm, hmm⟩ := process_chunk_ok_emitted h
    rw [hmm, List.drop_left]
    exact filterMap_emitted_starts i off (offs.getD (i - 1) 0 + size) mm d.segments

/-- Compact segment constructor used by the concrete witnesses (quality score
fixed at 1). -/
def mkSeg (st en : ℚ) (sid : String) (e : List ℚ) : Segment :=
  { startTimeSeconds := st, endTimeSeconds := en, speakerId := sid,
    qualityScore := 1, embedding := e }

/-- C1 witness: a step at i = 1 with an empty registry; the segment whose
adjusted start equals the boundary (10) is kept and the one below it dropped. -/
theorem C1_witness :
    process_chunk [0, 10] 10 ⟨[], [], 0⟩ 1
        ⟨[mkSeg 0 1 "A" [1], mkSeg (-5) (-4) "A" [1]], 3⟩ 10 =
      .ok ⟨[mkSeg 10 11 "1" [1]], [("1", [1])], 13⟩ ∧
    (([mkSeg 10 11 "1" [1]].drop (([] : List Segment).length)).map
        (fun s : Segment => s.startTimeSeconds)) =
      (([mkSeg 0 1 "A" [1], mkSeg (-5) (-4) "A" [1]].filter (fun seg =>
        !(decide (0 < 1) && decide (seg.startTimeSeconds + 10 < [0, 10].getD 0 0 + 10)))).map
        (fun seg => seg.startTimeSeconds + 10)) := by
  have hstep : process_chunk [0, 10] 10 ⟨[], [], 0⟩ 1
      ⟨[mkSeg 0 1 "A" [1], mkSeg (-5) (-4) "A" [1]], 3⟩ 10 =
      .ok ⟨[mkSeg 10 11 "1" [1]], [("1", [1])], 13⟩ := by
    have h1 : toString (1 : Int) = "1" := rfl
    norm_num [process_chunk, get_speaker_centroids, collectEmb, dlookup, dset, vecMean,
      vecAdd, map_speakers, computeNextId, parseIds, pyInt?, stripWS, digitsVal,
      assignSpeakers, bestExisting, updateGlobals, dmemb, mkSeg, h1, List.filterMap_cons]
  refine ⟨hstep, ?_⟩
  exact C1_dedup_boundary.2 [0, 10] 10 ⟨[], [], 0⟩ ⟨[mkSeg 10 11 "1" [1]], [("1", [1])], 13⟩ 1
    ⟨[mkSeg 0 1 "A" [1], mkSeg (-5) (-4) "A" [1]], 3⟩ 10 hstep

/-- C8: a chunk with zero segments is skipped whole (line 89): no centroids and
no mapping are computed (the code path returns before both), the registry is
unchanged, nothing is emitted, the contribution to speakerCount is 0 and
total_duration is untouched — the loop state passes through identically. -/
theorem C8_empty_chunk_noop (chunk_offsets : List ℚ) (chunk_size : ℚ) (st : MergeState)
    (i : ℕ) (dur : ℚ) (offset : ℚ) :
    process_chunk chunk_offsets chunk_size st i ⟨[], dur⟩ offset = .ok st :=
  process_chunk_empty_chunk chunk_offsets chunk_size st i dur offset

/-- C9: the merge is a pure deterministic function of its four inputs — the
model has no other inputs (dict iteration order is insertion order, the sort is
the deterministic stable mergeSort), so equal inputs give equal outputs. -/
theorem C9_merge_deterministic (chunks chunks' : List ChunkData) (offs offs' : List ℚ)
    (size size' ov ov' : ℚ) (h1 : chunks = chunks') (h2 : offs = offs') (h3 : size = size')
    (h4 : ov = ov') :
    merge_chunks chunks offs size ov = merge_chunks chunks' offs' size' ov' := by
  rw [h1, h2, h3, h4]

/-- C9 witness: the determinism theorem applied at a concrete input. -/
theorem C9_witness :
    merge_chunks [⟨[], 1⟩] [0] 3600 30 = merge_chunks [⟨[], 1⟩] [0] 3600 30 :=
  C9_merge_deterministic [⟨[], 1⟩] [⟨[], 1⟩] [0] [0] 3600 3600 30 30 rfl rfl rfl rfl

/-- C4 counterexample: a zero-norm first vector ([0], whose self-dot-product is
0) does NOT make the function fail fast — the checked model returns an ordinary
value (numpy emits only a RuntimeWarning and yields nan in this case), so the
claim "fails fast whenever either vector has zero norm" is false. -/
theorem C4_counterexample :
    dot [(0 : ℚ)] [(0 : ℚ)] = 0 ∧
    cosine_similarity_checked [(0 : ℚ)] [(1 : ℚ)] =
      .ok (cosine_similarity [(0 : ℚ)] [(1 : ℚ)]) := by
  constructor
  · norm_num [dot]
  · exact cosine_similarity_checked_ok rfl

/-- C4 amended: on equal-dimension vectors of nonzero norm the function returns
their cosine similarity, a scalar in [-1, 1]; a dimension mismatch raises
(np.dot's shape check); but a zero norm is NOT detected — the division is
performed silently (see the counterexample). -/
theorem C4_cosine_contract :
    (∀ a b : List ℚ, a.length = b.length → dot a a ≠ 0 → dot b b ≠ 0 →
      cosine_similarity_checked a b = .ok (cosine_similarity a b) ∧
      -1 ≤ cosine_similarity a b ∧ cosine_similarity a b ≤ 1) ∧
    (∀ a b : List ℚ, a.length ≠ b.length →
      cosine_similarity_checked a b = .error "shapes not aligned") := by
  constructor
  · intro a b hlen ha hb
    exact ⟨cosine_similarity_checked_ok hlen,
      (cosine_similarity_mem_Icc hlen ha hb).1, (cosine_similarity_mem_Icc hlen ha hb).2⟩
  · intro a b hlen
    exact cosine_similarity_checked_mismatch hlen

/-- C4 witness: the contract applied at [1],[1] (equal dimension, nonzero norm)
and at [1],[] (dimension mismatch). -/
theorem C4_witness :
    ([(1 : ℚ)].length = [(1 : ℚ)].length ∧ dot [(1 : ℚ)] [(1 : ℚ)] ≠ 0) ∧
    (cosine_similarity_checked [(1 : ℚ)] [(1 : ℚ)] =
      .ok (cosine_similarity [(1 : ℚ)] [(1 : ℚ)]) ∧
     -1 ≤ cosine_similarity [(1 : ℚ)] [(1 : ℚ)] ∧
     cosine_similarity [(1 : ℚ)] [(1 : ℚ)] ≤ 1) ∧
    cosine_similarity_checked [(1 : ℚ)] [] = .error "shapes not aligned" := by
  have hd : dot [(1 : ℚ)] [(1 : ℚ)] ≠ 0 := by norm_num [dot]
  refine ⟨⟨rfl, hd⟩, ?_, ?_⟩
  · exact C4_cosine_contract.1 [(1 : ℚ)] [(1 : ℚ)] rfl hd hd
  · exact C4_cosine_contract.2 [(1 : ℚ)] [] (by norm_num)

/-- C5 counterexample: when chunk 0 is empty, the first NON-EMPTY chunk is not
identity-mapped: its speaker "A" is renamed to the minted global id "1" in the
output, because the identity special case tests the chunk index (i == 0, line
96), not "first non-empty chunk processed". -/
theorem C5_counterexample :
    (merge_chunks [⟨[], 0⟩, ⟨[mkSeg 0 1 "A" [1]], 5⟩] [0, 10] 10 30).map
      (fun r => r.segments.map (fun s => s.speakerId)) = .ok ["1"] ∧
    ("1" : String) ≠ "A" := by
  constructor
  · have h1 : toString (1 : Int) = "1" := rfl
    norm_num [merge_chunks, mergeLoop, process_chunk, get_speaker_centroids, collectEmb,
      dlookup, dset, vecMean, vecAdd, initState, mkSeg, map_speakers, computeNextId,
      parseIds, assignSpeakers, bestExisting, updateGlobals, dmemb, Except.map, h1,
      List.filterMap_cons, List.mergeSort_singleton]
  · intro h
    exact absurd h (by decide)

/-- C5 amended: the identity mapping belongs to the chunk at index 0.  When the
chunk at position 0 has segments, every segment is emitted with its original
speakerId (identity mapping, line 98), those ids with their centroids become
the whole registry (line 99), and the i = 0 branch contains no similarity
computation.  (If chunk 0 is empty, the first non-empty chunk instead runs
map_speakers against the empty registry and its ids are minted 1, 2, ... — see
the counterexample.) -/
theorem C5_first_chunk_identity {offs : List ℚ} {size : ℚ} {st : MergeState} {d : ChunkData}
    {off : ℚ} (hne : d.segments ≠ []) :
    process_chunk offs size st 0 d off = .ok
      { all_segments := st.all_segments ++ d.segments.map (adjustSeg off),
        global_centroids := get_speaker_centroids d.segments,
        total_duration := max st.total_duration (d.durationSeconds + off) } :=
  process_chunk_zero hne

/-- C5 witness: the identity mapping observed on a concrete one-segment chunk 0. -/
theorem C5_witness :
    ([mkSeg 0 1 "A" [1]] : List Segment) ≠ [] ∧
    process_chunk [0] 10 ⟨[], [], 0⟩ 0 ⟨[mkSeg 0 1 "A" [1]], 5⟩ 0 = .ok
      { all_segments := ([] : List Segment) ++ [mkSeg 0 1 "A" [1]].map (adjustSeg 0),
        global_centroids := get_speaker_centroids [mkSeg 0 1 "A" [1]],
        total_duration := max 0 (5 + 0) } := by
  refine ⟨by simp, ?_⟩
  exact @C5_first_chunk_identity [0] 10 ⟨[], [], 0⟩ ⟨[mkSeg 0 1 "A" [1]], 5⟩ 0 (by simp)

/-- C10: whenever the existing registry is nonempty, line 50 evaluates int(sid)
over every registry key before any similarity is computed, so a single
non-numeric key makes map_speakers raise for EVERY chunk (for any new
centroids, hence even when a similarity match would exist); consequently a
first chunk carrying a non-numeric speaker id aborts the whole merge as soon
as a later non-empty chunk is processed. -/
theorem C10_int_parse_abort :
    (∀ (newC existing : List (String × List ℚ)) (t : ℝ) (k : String) (v : List ℚ),
      (k, v) ∈ existing → pyInt? k = none →
      map_speakers newC existing t = .error intErrMsg) ∧
    (∀ (c0 c1 : ChunkData) (off0 off1 size ov : ℚ) (s : Segment),
      s ∈ c0.segments → pyInt? s.speakerId = none → c1.segments ≠ [] →
      merge_chunks [c0, c1] [off0, off1] size ov = .error intErrMsg) := by
  constructor
  · intro newC existing t k v hmem hbad
    exact map_speakers_error_of_badkey newC t hmem hbad
  · intro c0 c1 off0 off1 size ov s hs hbad hne1
    have hne0 : c0.segments ≠ [] := by
      rintro h0
      rw [h0] at hs
      simp at hs
    apply merge_chunks_err
    have hzip : (([c0, c1].zip [off0, off1]) : List (ChunkData × ℚ)) =
        [(c0, off0), (c1, off1)] := rfl
    rw [hzip, mergeLoop_cons_ok (process_chunk_zero hne0)]
    obtain ⟨v, hv⟩ := Option.isSome_iff_exists.mp
      ((dlookup_isSome_iff_mem_dkeys _ _).mpr (speakerId_mem_centroids hs))
    have herr : map_speakers (get_speaker_centroids c1.segments)
        (get_speaker_centroids c0.segments) 0.85 = .error intErrMsg :=
      map_speakers_error_of_badkey _ _ (dlookup_eq_some_mem hv) hbad
    exact mergeLoop_cons_err (process_chunk_pos_err hne1 one_ne_zero herr)

/-- C10 witness: the parse abort observed on concrete data, both at the
map_speakers level and through a whole two-chunk merge. -/
theorem C10_witness :
    pyInt? "A" = none ∧
    map_speakers [] [("A", [(1 : ℚ)])] 0.85 = .error intErrMsg ∧
    pyInt? (mkSeg 0 1 "Speaker_A" [1]).speakerId = none ∧
    merge_chunks [⟨[mkSeg 0 1 "Speaker_A" [1]], 1⟩, ⟨[mkSeg 0 1 "B" [1]], 1⟩] [0, 10] 10 30 =
      .error intErrMsg := by
  have hbadA : pyInt? "A" = none := by decide
  have hbadS : pyInt? "Speaker_A" = none := by decide
  refine ⟨hbadA, ?_, hbadS, ?_⟩
  · exact C10_int_parse_abort.1 [] [("A", [1])] 0.85 "A" [1] (List.mem_singleton.mpr rfl) hbadA
  · exact C10_int_parse_abort.2 ⟨[mkSeg 0 1 "Speaker_A" [1]], 1⟩ ⟨[mkSeg 0 1 "B" [1]], 1⟩
      0 10 10 30 (mkSeg 0 1 "Speaker_A" [1]) (by simp) hbadS (by simp)

/-- C6 counterexample: a merge whose first chunk carries the single speaker id
"5" assigns exactly the global id "5" — ids are adopted verbatim from chunk 0,
so global ids are NOT assigned in increasing order starting from 1 ("1" is
never assigned in this run). -/
theorem C6_counterexample :
    (merge_chunks [⟨[mkSeg 0 1 "5" [1]], 2⟩] [0] 3600 30).map
      (fun r => (r.segments.map (fun s => s.speakerId), r.speakerCount)) =
      .ok (["5"], 1) ∧ ("5" : String) ≠ "1" := by
  constructor
  · norm_num [merge_chunks, mergeLoop, process_chunk, get_speaker_centroids, collectEmb,
      dlookup, dset, vecMean, vecAdd, initState, mkSeg, Except.map,
      List.filterMap_cons, List.mergeSort_singleton]
  · intro h
    exact absurd h (by decide)

/-- C6 amended: in every successful merge the registry keys are pairwise
distinct (a key, once present, is never reassigned — the line 106 membership
test refuses duplicates and minted ids are fresh), every speakerId in the
output is a registry key, and speakerCount is the registry size.  Ids are NOT
guaranteed to start from 1: chunk 0's ids are adopted verbatim; minted ids
count up from one above the maximum numeric registry id (C3). -/
theorem C6_registry_invariants {chunks : List ChunkData} {offs : List ℚ} {size ov : ℚ}
    {r : MergeResult} (h : merge_chunks chunks offs size ov = .ok r) :
    ∃ st, mergeLoop offs size (chunks.zip offs) 0 initState = .ok st ∧
      (dkeys st.global_centroids).Nodup ∧
      (∀ s ∈ r.segments, dmemb s.speakerId st.global_centroids = true) ∧
      r.speakerCount = st.global_centroids.length := by
  obtain ⟨st, hst, rfl⟩ := merge_chunks_ok_iff.mp h
  have hinv := mergeLoop_start_inv hst
  refine ⟨st, hst, hinv.1, ?_, rfl⟩
  intro s hs
  exact hinv.2 s (List.mem_mergeSort.mp hs)

/-- C6 witness: the registry invariants observed through a concrete one-chunk
merge. -/
theorem C6_witness :
    merge_chunks [⟨[mkSeg 0 1 "1" [1]], 5⟩] [0] 10 30 =
      .ok ⟨"merged", true, 1, 5, [mkSeg 0 1 "1" [1]], 1⟩ ∧
    ∃ st, mergeLoop [0] 10 ([(⟨[mkSeg 0 1 "1" [1]], 5⟩ : ChunkData)].zip [0]) 0 initState =
        .ok st ∧
      (dkeys st.global_centroids).Nodup ∧
      (∀ s ∈ ([mkSeg 0 1 "1" [1]] : List Segment),
        dmemb s.speakerId st.global_centroids = true) ∧
      (1 : ℕ) = st.global_centroids.length := by
  have h : merge_chunks [⟨[mkSeg 0 1 "1" [1]], 5⟩] [0] 10 30 =
      .ok ⟨"merged", true, 1, 5, [mkSeg 0 1 "1" [1]], 1⟩ := by
    norm_num [merge_chunks, mergeLoop, process_chunk, get_speaker_centroids, collectEmb,
      dlookup, dset, vecMean, vecAdd, initState, mkSeg,
      List.filterMap_cons, List.mergeSort_singleton]
  exact ⟨h, C6_registry_invariants h⟩

/-- C7: the final output is the accumulated surviving-segment list stable-sorted
by adjusted start time — a permutation of the accumulation, pairwise sorted by
startTimeSeconds, and, for every fixed start time, preserving the accumulation
order exactly (ties keep their original relative order); and speakerCount is
the size of the final registry. -/
theorem C7_sorted_stable_output {chunks : List ChunkData} {offs : List ℚ} {size ov : ℚ}
    {r : MergeResult} (h : merge_chunks chunks offs size ov = .ok r) :
    ∃ st, mergeLoop offs size (chunks.zip offs) 0 initState = .ok st ∧
      List.Perm r.segments st.all_segments ∧
      r.segments.Pairwise (fun a b => a.startTimeSeconds ≤ b.startTimeSeconds) ∧
      (∀ q : ℚ, r.segments.filter (fun s => decide (s.startTimeSeconds = q)) =
        st.all_segments.filter (fun s => decide (s.startTimeSeconds = q))) ∧
      r.speakerCount = st.global_centroids.length := by
  obtain ⟨st, hst, rfl⟩ := merge_chunks_ok_iff.mp h
  refine ⟨st, hst, List.mergeSort_perm _ _, ?_, fun q => mergeSort_filter_key _ q, rfl⟩
  have hs := List.sorted_mergeSort segLE_trans segLE_total st.all_segments
  refine hs.imp ?_
  intro a b hab
  simpa [segLE] using hab

/-- C7 witness: the sortedness, permutation and stability facts observed
through a concrete one-chunk merge. -/
theorem C7_witness :
    merge_chunks [⟨[mkSeg 3 4 "1" [1]], 5⟩] [0] 10 30 =
      .ok ⟨"merged", true, 1, 5, [mkSeg 3 4 "1" [1]], 1⟩ ∧
    ∃ st, mergeLoop [0] 10 ([(⟨[mkSeg 3 4 "1" [1]], 5⟩ : ChunkData)].zip [0]) 0 initState =
        .ok st ∧
      List.Perm ([mkSeg 3 4 "1" [1]] : List Segment) st.all_segments ∧
      ([mkSeg 3 4 "1" [1]] : List Segment).Pairwise
        (fun a b => a.startTimeSeconds ≤ b.startTimeSeconds) ∧
      (∀ q : ℚ, ([mkSeg 3 4 "1" [1]] : List Segment).filter
          (fun s => decide (s.startTimeSeconds = q)) =
        st.all_segments.filter (fun s => decide (s.startTimeSeconds = q))) ∧
      (1 : ℕ) = st.global_centroids.length := by
  have h : merge_chunks [⟨[mkSeg 3 4 "1" [1]], 5⟩] [0] 10 30 =
      .ok ⟨"merged", true, 1, 5, [mkSeg 3 4 "1" [1]], 1⟩ := by
    norm_num [merge_chunks, mergeLoop, process_chunk, get_speaker_centroids, collectEmb,
      dlookup, dset, vecMean, vecAdd, initState, mkSeg,
      List.filterMap_cons, List.mergeSort_singleton]
  exact ⟨h, C7_sorted_stable_output h⟩

/-- C3: (a) in one map_speakers call from a registry whose next id computes to
n₀ (= max numeric id + 1, or 1 on an empty registry), the unmatched local
speaker preceded by k earlier unmatched ones is assigned the id
toString (n₀ + k) — i.e. ids one greater than the current maximum, counting the
ids minted a moment earlier in the same call as the spec's "next unused
integer" does; (b) a freshly minted id is registered with that local speaker's
chunk centroid (lines 105-107); (c) a registry entry is never changed by any
later chunk — centroids are not re-averaged. -/
theorem C3_minting :
    (∀ (newC existing : List (String × List ℚ)) (t : ℝ) (m : List (String × String))
       (n₀ : Int) (pre post : List (String × List ℚ)) (sid : String) (c : List ℚ),
      map_speakers newC existing t = .ok m →
      computeNextId existing = .ok n₀ →
      newC = pre ++ (sid, c) :: post →
      (newC.map Prod.fst).Nodup →
      mintedB existing t c = true →
      dlookup sid m = some (toString (n₀ + (mintCount existing t pre : ℤ)))) ∧
    (∀ (m : List (String × String)) (cc g : List (String × List ℚ)) (sid gid : String),
      (sid, gid) ∈ m → dmemb gid g = false →
      (∀ p ∈ m, p.2 = gid → p.1 = sid) →
      dlookup gid (updateGlobals m cc g) = some ((dlookup sid cc).getD [])) ∧
    (∀ (offs : List ℚ) (size : ℚ) (pairs : List (ChunkData × ℚ)) (i : ℕ)
       (st st' : MergeState) (g : String) (v : List ℚ), i ≠ 0 →
      mergeLoop offs size pairs i st = .ok st' →
      dlookup g st.global_centroids = some v →
      dlookup g st'.global_centroids = some v) := by
  refine ⟨?_, ?_, ?_⟩
  · intro newC existing t m n₀ pre post sid c hok hn₀ hsplit hnd hmint
    obtain ⟨n, hn, rfl⟩ := map_speakers_ok_iff.mp hok
    have hnn : n = n₀ := by
      rw [hn] at hn₀
      exact Except.ok.inj hn₀
    subst hnn
    subst hsplit
    exact assignSpeakers_lookup_minted pre post hnd hmint n
  · intro m cc g sid gid hmem hnot huniq
    exact dlookup_updateGlobals_minted m cc g hmem hnot huniq
  · intro offs size pairs i st st' g v hi h hg
    exact mergeLoop_preserves_lookup pairs i st st' hi h hg

/-- C3 witness: two speakers minted against an empty registry receive "1" and
"2"; a minted id is registered with the local centroid; a later empty loop
leaves a registry entry untouched. -/
theorem C3_witness :
    map_speakers [("A", [(2 : ℚ)]), ("B", [(3 : ℚ)])] [] 0.85 =
      .ok [("A", "1"), ("B", "2")] ∧
    dlookup "B" [("A", "1"), ("B", "2")] =
      some (toString ((1 : ℤ) + (mintCount [] 0.85 [("A", [(2 : ℚ)])] : ℤ))) ∧
    dlookup "1" (updateGlobals [("A", "1")] [("A", [(5 : ℚ)])] []) =
      some ((dlookup "A" [("A", [(5 : ℚ)])]).getD []) ∧
    dlookup "1" (⟨[], [("1", [(7 : ℚ)])], 0⟩ : MergeState).global_centroids = some [(7 : ℚ)] := by
  have hok : map_speakers [("A", [(2 : ℚ)]), ("B", [(3 : ℚ)])] [] 0.85 =
      .ok [("A", "1"), ("B", "2")] := rfl
  refine ⟨hok, ?_, ?_, ?_⟩
  · exact C3_minting.1 [("A", [(2 : ℚ)]), ("B", [(3 : ℚ)])] [] 0.85 [("A", "1"), ("B", "2")]
      1 [("A", [(2 : ℚ)])] [] "B" [(3 : ℚ)] hok rfl rfl (by simp) rfl
  · refine C3_minting.2.1 [("A", "1")] [("A", [(5 : ℚ)])] [] "A" "1" (by simp) rfl ?_
    intro p hp h2
    have : p = ("A", "1") := by simpa using hp
    rw [this]
  · exact C3_minting.2.2 [] 0 [] 1 ⟨[], [("1", [(7 : ℚ)])], 0⟩ ⟨[], [("1", [(7 : ℚ)])], 0⟩
      "1" [(7 : ℚ)] one_ne_zero rfl rfl

/-- C2: when any existing centroid is strictly more similar than the threshold,
the mapper assigns the local speaker the existing global id attaining the
maximal similarity, and on ties the one seen first in registry iteration
order — every strictly earlier registry entry has strictly smaller similarity,
so the choice is deterministic. -/
theorem C2_match_highest_first_seen {newC existing : List (String × List ℚ)} {t : ℝ}
    {m : List (String × String)} {sid : String} {c : List ℚ}
    (hok : map_speakers newC existing t = .ok m)
    (hnd : (newC.map Prod.fst).Nodup)
    (hmem : (sid, c) ∈ newC)
    (hcand : ∃ p ∈ existing, t < cosine_similarity c p.2) :
    ∃ l₁ q l₂, existing = l₁ ++ q :: l₂ ∧
      dlookup sid m = some q.1 ∧
      t < cosine_similarity c q.2 ∧
      (∀ p ∈ existing, cosine_similarity c p.2 ≤ cosine_similarity c q.2) ∧
      (∀ p ∈ l₁, cosine_similarity c p.2 < cosine_similarity c q.2) := by
  obtain ⟨n, hn, rfl⟩ := map_speakers_ok_iff.mp hok
  rcases bestExisting_spec c t existing with ⟨heq, hall⟩ | ⟨l₁, q, l₂, hsplit, heq, hlt, hall, hfirst⟩
  · obtain ⟨p, hp, hpt⟩ := hcand
    exact absurd (hall p hp) (not_le.mpr hpt)
  · have hb2 : (bestExisting c existing t).2 = some q.1 := by rw [heq]
    have hexne : existing ≠ [] := by
      intro hcontra
      rw [hcontra] at hsplit
      exact absurd hsplit.symm (by simp)
    have hqmem : q ∈ existing := by
      rw [hsplit]
      exact List.mem_append_right _ (List.mem_cons_self _ _)
    have hq1 : q.1 ≠ "" := computeNextId_ok_key_ne_empty hexne hn q hqmem
    exact ⟨l₁, q, l₂, hsplit, assignSpeakers_lookup_matched hnd hmem hb2 hq1 n, hlt, hall, hfirst⟩

/-- C2 witness: with one existing speaker "1" whose centroid has cosine
similarity 1 to the local centroid (above the 0.85 threshold), the mapper
assigns "A" the global id "1", the first-seen maximiser. -/
theorem C2_witness :
    map_speakers [("A", [(1 : ℚ)])] [("1", [(1 : ℚ)])] 0.85 = .ok [("A", "1")] ∧
    (∃ l₁ q l₂, ([("1", [(1 : ℚ)])] : List (String × List ℚ)) = l₁ ++ q :: l₂ ∧
      dlookup "A" [("A", "1")] = some q.1 ∧
      (0.85 : ℝ) < cosine_similarity [(1 : ℚ)] q.2 ∧
      (∀ p ∈ ([("1", [(1 : ℚ)])] : List (String × List ℚ)),
        cosine_similarity [(1 : ℚ)] p.2 ≤ cosine_similarity [(1 : ℚ)] q.2) ∧
      (∀ p ∈ l₁, cosine_similarity [(1 : ℚ)] p.2 < cosine_similarity [(1 : ℚ)] q.2)) := by
  have hdot : dot [(1 : ℚ)] [(1 : ℚ)] = 1 := by norm_num [dot]
  have hcos : cosine_similarity [(1 : ℚ)] [(1 : ℚ)] = 1 := by
    rw [cosine_similarity, hdot]
    norm_num [Real.sqrt_one]
  have hb2 : (bestExisting [(1 : ℚ)] [("1", [(1 : ℚ)])] 0.85).2 = some "1" := by
    rw [bestExisting, List.foldl_cons, List.foldl_nil]
    show (if cosine_similarity [(1 : ℚ)] [(1 : ℚ)] > (0.85 : ℝ) then
        (cosine_similarity [(1 : ℚ)] [(1 : ℚ)], some "1")
      else ((0.85 : ℝ), (none : Option String))).2 = some "1"
    rw [hcos, if_pos (by norm_num)]
  have hok : map_speakers [("A", [(1 : ℚ)])] [("1", [(1 : ℚ)])] 0.85 = .ok [("A", "1")] := by
    rw [map_speakers]
    rw [show computeNextId [("1", [(1 : ℚ)])] = .ok 2 from rfl]
    show Except.ok (assignSpeakers [("1", [(1 : ℚ)])] 0.85 [("A", [(1 : ℚ)])] 2) = _
    rw [assignSpeakers_cons_matched [] 2 hb2 (by decide)]
    rfl
  have hcand : ∃ p ∈ ([("1", [(1 : ℚ)])] : List (String × List ℚ)),
      (0.85 : ℝ) < cosine_similarity [(1 : ℚ)] p.2 := by
    refine ⟨("1", [(1 : ℚ)]), by simp, ?_⟩
    show (0.85 : ℝ) < cosine_similarity [(1 : ℚ)] [(1 : ℚ)]
    rw [hcos]
    norm_num
  exact ⟨hok, C2_match_highest_first_seen hok (by simp) (by simp) hcand⟩
